import Mathlib

/-!
# Book catalogue service (`main/main.go`)

A shallow embedding of the five HTTP handlers of `main/main.go` together with
the parts of their collaborators that decide what a client observes:

* the `net/http` response writer (first `WriteHeader` wins, headers are
  snapshotted when the status line is written);
* `fmt`'s `%q` verb (`strconv.Quote`);
* `encoding/json` (`MarshalIndent` of a `Book` / `[]Book`, and
  `Decoder.Decode` into a `Book`);
* the `books` collection of the `store` database behind `mgo`, with the unique
  index on `isbn` that `ensureIndex` creates;
* the `goji` mux with the five `pat` routes that `main` registers (a binding
  such as `:isbn` takes one path segment that is not empty, and a request that
  matches no route is answered by `http.NotFound`).

Strings are sequences of Unicode scalar values (`String`), i.e. request bodies
and record fields are well-formed UTF-8 text.
-/

namespace MongoTest

/-! ## `net/http`: the response writer -/

/-- Response header map (`http.Header`) as an association list. The keys the
handlers use (`Content-Type`, `Location`) are already in canonical form. -/
abbrev Header := List (String × String)

/-- Method `Header.Set(key, value)`: the new value replaces what was stored under `key`. -/
def headerSet (h : Header) (key value : String) : Header :=
  (key, value) :: h.filter (fun kv => kv.1 != key)

/-- Method `Header.Get(key)`, with `none` for an absent key. -/
def headerGet (h : Header) (key : String) : Option String :=
  h.lookup key

/-- State of an `http.ResponseWriter` while a handler runs.
`header` is the map returned by `w.Header()`; `sent` is the copy of it that went
out with the status line; `status` is meaningful once `wroteHeader` is set. -/
structure ResponseWriter where
  header : Header
  wroteHeader : Bool
  status : Nat
  sent : Header
  body : String
deriving DecidableEq

/-- The writer a handler receives for a new request. -/
def ResponseWriter.fresh : ResponseWriter :=
  { header := [], wroteHeader := false, status := 0, sent := [], body := "" }

/-- The call `w.Header().Set(key, value)`. After the status line has been written the map
can still be changed, but the change is no longer sent. -/
def ResponseWriter.SetHeader (w : ResponseWriter) (key value : String) : ResponseWriter :=
  { w with header := headerSet w.header key value }

/-- Method `w.WriteHeader(code)`: the first call fixes the status and the headers that
are sent; any later call is superfluous and changes nothing. The handlers pass
201, 204, 400, 404 and 500 only, so the special treatment the library gives to
informational codes and to codes outside 100–999 is left out. -/
def ResponseWriter.WriteHeader (w : ResponseWriter) (code : Nat) : ResponseWriter :=
  if w.wroteHeader then w
  else { w with wroteHeader := true, status := code, sent := w.header }

/-- Function `bodyAllowedForStatus` of `net/http`. -/
def bodyAllowedForStatus (status : Nat) : Bool :=
  if 100 ≤ status ∧ status ≤ 199 then false
  else if status = 204 then false
  else if status = 304 then false
  else true

/-- Method `w.Write(data)`: writes the status line with 200 if none was written yet,
then appends `data` to the body when the status allows a body. -/
def ResponseWriter.Write (w : ResponseWriter) (data : String) : ResponseWriter :=
  let w1 := if w.wroteHeader then w else w.WriteHeader 200
  if bodyAllowedForStatus w1.status then { w1 with body := w1.body ++ data } else w1

/-- What the server does when the handler returns without a status line. -/
def ResponseWriter.finish (w : ResponseWriter) : ResponseWriter :=
  if w.wroteHeader then w else w.WriteHeader 200

/-! ## `fmt` / `strconv`: the `%q` verb -/

/-- Table `lowerhex` of `strconv`: the digit of a value below 16. -/
def lowerhex (n : Nat) : Char :=
  if n < 10 then Char.ofNat (48 + n) else Char.ofNat (87 + n)

/-- Function `strconv.IsPrint`. The Latin-1 range is decided as in the library; for the
runes above it the library consults Unicode tables, which are taken as the
parameter `tbl`. -/
def IsPrint (tbl : Nat → Bool) (r : Nat) : Bool :=
  if r ≤ 0xFF then
    if 0x20 ≤ r ∧ r < 0x7F then true
    else if 0xA1 ≤ r ∧ r ≤ 0xFF then r != 0xAD
    else false
  else tbl r

/-- Function `strconv.appendEscapedRune` for the double quote as the quote character. -/
def appendEscapedRune (tbl : Nat → Bool) (r : Char) : List Char :=
  if r = '"' ∨ r = '\\' then ['\\', r]
  else if IsPrint tbl r.toNat then [r]
  else if r.toNat = 7 then ['\\', 'a']
  else if r.toNat = 8 then ['\\', 'b']
  else if r.toNat = 12 then ['\\', 'f']
  else if r.toNat = 10 then ['\\', 'n']
  else if r.toNat = 13 then ['\\', 'r']
  else if r.toNat = 9 then ['\\', 't']
  else if r.toNat = 11 then ['\\', 'v']
  else if r.toNat < 0x20 ∨ r.toNat = 0x7F then
    ['\\', 'x', lowerhex (r.toNat / 16), lowerhex (r.toNat % 16)]
  else if r.toNat < 0x10000 then
    ['\\', 'u', lowerhex (r.toNat / 4096 % 16), lowerhex (r.toNat / 256 % 16),
      lowerhex (r.toNat / 16 % 16), lowerhex (r.toNat % 16)]
  else
    ['\\', 'U', lowerhex (r.toNat / 268435456 % 16), lowerhex (r.toNat / 16777216 % 16),
      lowerhex (r.toNat / 1048576 % 16), lowerhex (r.toNat / 65536 % 16),
      lowerhex (r.toNat / 4096 % 16), lowerhex (r.toNat / 256 % 16),
      lowerhex (r.toNat / 16 % 16), lowerhex (r.toNat % 16)]

/-- Escapes every rune of a text in turn. -/
def quoteRunes (tbl : Nat → Bool) : List Char → List Char
  | [] => []
  | r :: rs => appendEscapedRune tbl r ++ quoteRunes tbl rs

/-- Function `strconv.Quote(s)`, which is what `%q` prints for a string operand. -/
def Quote (tbl : Nat → Bool) (s : String) : String :=
  String.mk ('"' :: quoteRunes tbl s.data ++ ['"'])

/-! ## `ErrorWithJSON` and `ResponseWithJSON` (`main.go`, lines 16–26) -/

/-- Function `ErrorWithJSON(w, message, code)` of `main.go`: sets the content
type, writes the status line, and prints the message with the format
`{message:%q}`. -/
def ErrorWithJSON (tbl : Nat → Bool) (w : ResponseWriter) (message : String) (code : Nat) :
    ResponseWriter :=
  let w := w.SetHeader "Content-Type" "application/json;charset=utf-8"
  let w := w.WriteHeader code
  w.Write ("\x7bmessage:" ++ Quote tbl message ++ "\x7d")

/-- Function `ResponseWithJSON(w, json, code)` of `main.go`. -/
def ResponseWithJSON (w : ResponseWriter) (json : String) (code : Nat) : ResponseWriter :=
  let w := w.SetHeader "Content-Type" "application/json; charset=utf-8"
  let w := w.WriteHeader code
  w.Write json

/-! ## The data model -/

/-- The Go struct `Book`. Its field tags (`"json:isbn"`, …) are not in the
`key:"value"` form, so neither `encoding/json` nor `bson` reads a name from
them: JSON uses the field names, BSON the lower-cased field names. -/
structure Book where
  ISBN : String
  Title : String
  Authors : String
  Price : String
deriving DecidableEq

/-- The zero value a `var book Book` declaration yields. -/
def Book.zero : Book := ⟨"", "", "", ""⟩

/-- A document of the `books` collection as the service writes it: the four
string fields under their BSON keys. The server-assigned `_id` is left out, as
no handler reads or selects on it. -/
structure Doc where
  isbn : String
  title : String
  authors : String
  price : String
deriving DecidableEq

/-- BSON encoding of a `Book` (what `Insert` and `Update` send). -/
def bsonMarshal (b : Book) : Doc := ⟨b.ISBN, b.Title, b.Authors, b.Price⟩

/-- BSON decoding of a stored document into a `Book` variable. -/
def bsonUnmarshal (d : Doc) : Book := ⟨d.isbn, d.title, d.authors, d.price⟩

/-! ## `encoding/json`: `MarshalIndent` -/

/-- The escaping `encoding/json` applies to one rune of a string (HTML escaping
on, as `Marshal` and `MarshalIndent` have it). -/
def jsonEscapeRune (c : Char) : List Char :=
  if c.toNat < 0x80 then
    if 0x20 ≤ c.toNat ∧ c ≠ '"' ∧ c ≠ '&' ∧ c ≠ '<' ∧ c ≠ '>' ∧ c ≠ '\\' then [c]
    else if c = '\\' ∨ c = '"' then ['\\', c]
    else if c.toNat = 8 then ['\\', 'b']
    else if c.toNat = 12 then ['\\', 'f']
    else if c.toNat = 10 then ['\\', 'n']
    else if c.toNat = 13 then ['\\', 'r']
    else if c.toNat = 9 then ['\\', 't']
    else ['\\', 'u', '0', '0', lowerhex (c.toNat / 16), lowerhex (c.toNat % 16)]
  else if c.toNat = 0x2028 ∨ c.toNat = 0x2029 then
    ['\\', 'u', '2', '0', '2', lowerhex (c.toNat % 16)]
  else [c]

/-- Escapes the runes of a string body in turn. -/
def jsonEscape : List Char → List Char
  | [] => []
  | c :: cs => jsonEscapeRune c ++ jsonEscape cs

/-- A JSON string literal for `s`. -/
def jsonString (s : String) : List Char :=
  '"' :: (jsonEscape s.data ++ ['"'])

/-- Line break of `Indent` with empty prefix and a one-space indent, at nesting
depth `d`. -/
def newline (d : Nat) : List Char :=
  '\n' :: List.replicate d ' '

/-- One member of an indented object: the quoted name, a colon, a space and the
string value. -/
def encodeMember (name : List Char) (value : String) : List Char :=
  '"' :: (name ++ ('"' :: ':' :: ' ' :: jsonString value))

/-- The indented encoding of one `Book` whose braces sit at depth `d`. The
member names are the Go field names. -/
def encodeBook (d : Nat) (b : Book) : List Char :=
  '\x7b' :: (newline (d + 1) ++ (encodeMember ['I', 'S', 'B', 'N'] b.ISBN ++
    (',' :: (newline (d + 1) ++ (encodeMember ['T', 'i', 't', 'l', 'e'] b.Title ++
    (',' :: (newline (d + 1) ++ (encodeMember ['A', 'u', 't', 'h', 'o', 'r', 's'] b.Authors ++
    (',' :: (newline (d + 1) ++ (encodeMember ['P', 'r', 'i', 'c', 'e'] b.Price ++
    (newline d ++ ['\x7d']))))))))))))

/-- The elements of a non-empty array after the first, each led by a comma. -/
def encodeMore : List Book → List Char
  | [] => []
  | b :: bs => ',' :: (newline 1 ++ (encodeBook 1 b ++ encodeMore bs))

/-- The call `json.MarshalIndent(book, "", " ")` for a `Book`. -/
def MarshalIndentBook (b : Book) : String :=
  String.mk (encodeBook 0 b)

/-- The call `json.MarshalIndent(books, "", " ")` for a `[]Book`. A Go slice is `none`
when it is nil and `some l` when it is allocated: a nil slice encodes as `null`,
an allocated empty one as `[]`. -/
def MarshalIndentBooks : Option (List Book) → String
  | none => "null"
  | some [] => "[]"
  | some (b :: bs) =>
    String.mk ('[' :: (newline 1 ++ (encodeBook 1 b ++ (encodeMore bs ++ (newline 0 ++ [']'])))))

/-! ## `encoding/json`: `Decoder.Decode` into a `Book` -/

/-- A JSON value as the scanner delimits it. -/
inductive JValue where
  | null
  | bool (b : Bool)
  | number (text : List Char)
  | string (s : List Char)
  | array (elems : List JValue)
  | object (members : List (List Char × JValue))

/-- The pieces of a string literal: a rune standing for itself (or written with
a one-letter escape), or the value of a `\uXXXX` escape. -/
inductive StrItem where
  | lit (c : Char)
  | esc (n : Nat)

/-- Function `isSpace` of the scanner. -/
def isSpace (c : Char) : Bool :=
  c = ' ' ∨ c = '\t' ∨ c = '\r' ∨ c = '\n'

/-- Drops leading white space. -/
def skipSpace : List Char → List Char
  | [] => []
  | c :: cs => if isSpace c then skipSpace cs else c :: cs

/-- Value of a hexadecimal digit of either case. -/
def hexVal (c : Char) : Option Nat :=
  if 48 ≤ c.toNat ∧ c.toNat ≤ 57 then some (c.toNat - 48)
  else if 97 ≤ c.toNat ∧ c.toNat ≤ 102 then some (c.toNat - 87)
  else if 65 ≤ c.toNat ∧ c.toNat ≤ 70 then some (c.toNat - 55)
  else none

/-- The rune a one-letter escape stands for. -/
def simpleEscape (e : Char) : Option Char :=
  if e = '"' then some '"'
  else if e = '\\' then some '\\'
  else if e = '/' then some '/'
  else if e = 'b' then some (Char.ofNat 8)
  else if e = 'f' then some (Char.ofNat 12)
  else if e = 'n' then some '\n'
  else if e = 'r' then some '\r'
  else if e = 't' then some '\t'
  else none

/-- Scans a string literal after its opening quote (scanner states
`stateInString`, `stateInStringEsc`, `stateInStringEscU…`): the pieces up to the
closing quote and the input after it, or `none` on a syntax error or on input
that ends inside the literal. -/
def scanString : List Char → Option (List StrItem × List Char)
  | [] => none
  | c :: cs =>
    if c = '"' then some ([], cs)
    else if c = '\\' then
      match cs with
      | [] => none
      | e :: cs1 =>
        if e = 'u' then
          match cs1 with
          | h1 :: h2 :: h3 :: h4 :: cs2 =>
            match hexVal h1, hexVal h2, hexVal h3, hexVal h4 with
            | some x1, some x2, some x3, some x4 =>
              match scanString cs2 with
              | some (items, rest) =>
                some (StrItem.esc (x1 * 4096 + x2 * 256 + x3 * 16 + x4) :: items, rest)
              | none => none
            | _, _, _, _ => none
          | _ => none
        else
          match simpleEscape e with
          | some ch =>
            match scanString cs1 with
            | some (items, rest) => some (StrItem.lit ch :: items, rest)
            | none => none
          | none => none
    else if c.toNat < 0x20 then none
    else
      match scanString cs with
      | some (items, rest) => some (StrItem.lit c :: items, rest)
      | none => none

/-- Function `utf16.IsSurrogate`. -/
def isSurrogate (n : Nat) : Bool :=
  0xD800 ≤ n ∧ n < 0xE000

/-- Function `unquote`: turns the pieces of a literal into its text. A high surrogate
escape directly followed by a low surrogate escape is one rune; any other
surrogate escape becomes U+FFFD. -/
def unquote : List StrItem → List Char
  | [] => []
  | StrItem.lit c :: rest => c :: unquote rest
  | StrItem.esc n :: StrItem.esc m :: rest =>
    if isSurrogate n then
      if n < 0xDC00 ∧ 0xDC00 ≤ m ∧ m < 0xE000 then
        Char.ofNat ((n - 0xD800) * 1024 + (m - 0xDC00) + 0x10000) :: unquote rest
      else Char.ofNat 0xFFFD :: unquote (StrItem.esc m :: rest)
    else Char.ofNat n :: unquote (StrItem.esc m :: rest)
  | StrItem.esc n :: rest =>
    if isSurrogate n then Char.ofNat 0xFFFD :: unquote rest
    else Char.ofNat n :: unquote rest

/-- Decimal digit test. -/
def isDigit (c : Char) : Bool :=
  48 ≤ c.toNat ∧ c.toNat ≤ 57

/-- Drops leading digits. -/
def skipDigits : List Char → List Char
  | [] => []
  | c :: cs => if isDigit c then skipDigits cs else c :: cs

/-- Drops the sign an exponent may start with (state `stateE`). -/
def skipSign : List Char → List Char
  | [] => []
  | s :: r => if s = '+' ∨ s = '-' then r else s :: r

/-- Optional exponent of a number (states `stateE`, `stateESign`, `stateE0`). -/
def scanExp (cs : List Char) : Option (List Char) :=
  match cs with
  | [] => some cs
  | c :: r =>
    if c = 'e' ∨ c = 'E' then
      match skipSign r with
      | [] => none
      | d :: r2 => if isDigit d then some (skipDigits r2) else none
    else some cs

/-- Optional fraction of a number, then the exponent (states `state0`,
`stateDot`, `stateDot0`). -/
def scanFrac (cs : List Char) : Option (List Char) :=
  match cs with
  | [] => some cs
  | c :: r =>
    if c = '.' then
      match r with
      | [] => none
      | d :: r2 => if isDigit d then scanExp (skipDigits r2) else none
    else scanExp cs

/-- Integer part of a number after the optional sign (states `stateNeg`,
`state0`, `state1`). -/
def scanInt (cs : List Char) : Option (List Char) :=
  match cs with
  | [] => none
  | c :: r =>
    if c = '0' then scanFrac r
    else if isDigit c then scanFrac (skipDigits r)
    else none

/-- Scans a number; the result is the input after it. -/
def scanNumber (cs : List Char) : Option (List Char) :=
  match cs with
  | [] => none
  | c :: r => if c = '-' then scanInt r else scanInt cs

/-- Expects the letters `w` at the head of the input (the rest of `true`,
`false` or `null`). -/
def expectWord : List Char → List Char → Option (List Char)
  | [], cs => some cs
  | _ :: _, [] => none
  | x :: w, c :: cs => if c = x then expectWord w cs else none

/-- Nesting limit of the scanner. -/
def maxNestingDepth : Nat := 10000

mutual
/-- Scans one JSON value, white space before it skipped: the value and the
input after it. `depth` counts the arrays and objects that are open. The first
argument bounds the number of nested calls. -/
def parseValue : Nat → Nat → List Char → Option (JValue × List Char)
  | 0, _, _ => none
  | fuel + 1, depth, cs =>
    match skipSpace cs with
    | [] => none
    | c :: rest =>
      if c = '"' then
        match scanString rest with
        | some (items, r) => some (JValue.string (unquote items), r)
        | none => none
      else if c = '\x7b' then
        if depth + 1 > maxNestingDepth then none
        else
          match skipSpace rest with
          | [] => none
          | c1 :: r1 =>
            if c1 = '\x7d' then some (JValue.object [], r1)
            else
              match parseMembers fuel (depth + 1) (c1 :: r1) with
              | some (ms, r) => some (JValue.object ms, r)
              | none => none
      else if c = '[' then
        if depth + 1 > maxNestingDepth then none
        else
          match skipSpace rest with
          | [] => none
          | c1 :: r1 =>
            if c1 = ']' then some (JValue.array [], r1)
            else
              match parseElems fuel (depth + 1) (c1 :: r1) with
              | some (vs, r) => some (JValue.array vs, r)
              | none => none
      else if c = 't' then
        match expectWord ['r', 'u', 'e'] rest with
        | some r => some (JValue.bool true, r)
        | none => none
      else if c = 'f' then
        match expectWord ['a', 'l', 's', 'e'] rest with
        | some r => some (JValue.bool false, r)
        | none => none
      else if c = 'n' then
        match expectWord ['u', 'l', 'l'] rest with
        | some r => some (JValue.null, r)
        | none => none
      else if c = '-' ∨ isDigit c then
        match scanNumber (c :: rest) with
        | some r => some (JValue.number ((c :: rest).take ((c :: rest).length - r.length)), r)
        | none => none
      else none
/-- Scans the members of an object from a key on, up to and including the
closing brace. -/
def parseMembers : Nat → Nat → List Char → Option (List (List Char × JValue) × List Char)
  | 0, _, _ => none
  | fuel + 1, depth, cs =>
    match skipSpace cs with
    | [] => none
    | c :: rest =>
      if c = '"' then
        match scanString rest with
        | none => none
        | some (items, r1) =>
          match skipSpace r1 with
          | [] => none
          | c2 :: r2 =>
            if c2 = ':' then
              match parseValue fuel depth r2 with
              | none => none
              | some (v, r3) =>
                match skipSpace r3 with
                | [] => none
                | c3 :: r4 =>
                  if c3 = ',' then
                    match parseMembers fuel depth r4 with
                    | some (ms, r) => some ((unquote items, v) :: ms, r)
                    | none => none
                  else if c3 = '\x7d' then some ([(unquote items, v)], r4)
                  else none
            else none
      else none
/-- Scans the elements of an array from a value on, up to and including the
closing bracket. -/
def parseElems : Nat → Nat → List Char → Option (List JValue × List Char)
  | 0, _, _ => none
  | fuel + 1, depth, cs =>
    match parseValue fuel depth cs with
    | none => none
    | some (v, r1) =>
      match skipSpace r1 with
      | [] => none
      | c :: r2 =>
        if c = ',' then
          match parseElems fuel depth r2 with
          | some (vs, r) => some (v :: vs, r)
          | none => none
        else if c = ']' then some ([v], r2)
        else none
end

/-- The errors `Decode` can return: the body is not one JSON value
(`*json.SyntaxError`, `io.EOF`, `io.ErrUnexpectedEOF`), or a value does not fit
the Go type it is stored into (`*json.UnmarshalTypeError`). -/
inductive DecodeError where
  | malformed
  | wrongType
deriving DecidableEq

/-- Case folding of member names: ASCII letters to upper case, and the two
non-ASCII runes that fold onto ASCII letters (U+017F onto S, U+212A onto K). -/
def foldRune (c : Char) : Char :=
  if 97 ≤ c.toNat ∧ c.toNat ≤ 122 then Char.ofNat (c.toNat - 32)
  else if c.toNat = 0x17F then 'S'
  else if c.toNat = 0x212A then 'K'
  else c

/-- Stores one object member into the book being decoded. A member whose name
matches a field, case folded, is stored into it: a string sets the field, `null`
leaves it, any other value records a type error (the first one is kept) and
decoding goes on. A member that matches no field is skipped. -/
def storeMember (acc : Book × Option DecodeError) (m : List Char × JValue) :
    Book × Option DecodeError :=
  let saveError : Option DecodeError :=
    match acc.2 with
    | some e => some e
    | none => some DecodeError.wrongType
  let k := m.1.map foldRune
  if k = ['I', 'S', 'B', 'N'] then
    match m.2 with
    | JValue.string s => ({ acc.1 with ISBN := String.mk s }, acc.2)
    | JValue.null => acc
    | _ => (acc.1, saveError)
  else if k = ['T', 'I', 'T', 'L', 'E'] then
    match m.2 with
    | JValue.string s => ({ acc.1 with Title := String.mk s }, acc.2)
    | JValue.null => acc
    | _ => (acc.1, saveError)
  else if k = ['A', 'U', 'T', 'H', 'O', 'R', 'S'] then
    match m.2 with
    | JValue.string s => ({ acc.1 with Authors := String.mk s }, acc.2)
    | JValue.null => acc
    | _ => (acc.1, saveError)
  else if k = ['P', 'R', 'I', 'C', 'E'] then
    match m.2 with
    | JValue.string s => ({ acc.1 with Price := String.mk s }, acc.2)
    | JValue.null => acc
    | _ => (acc.1, saveError)
  else acc

/-- Unmarshals a scanned value into `book`: an object member by member, `null`
as a no-op, anything else as a type error that leaves `book` alone. -/
def unmarshalBook (v : JValue) (book : Book) : Book × Option DecodeError :=
  match v with
  | JValue.object ms => ms.foldl storeMember (book, none)
  | JValue.null => (book, none)
  | _ => (book, some DecodeError.wrongType)

/-- The call `json.NewDecoder(r.Body).Decode(&book)`: reads the first JSON value of the
body (what follows it is not looked at) and unmarshals it into `book`. When the
body does not start with a complete JSON value, `book` is left as it was. -/
def Decode (body : String) (book : Book) : Book × Option DecodeError :=
  match parseValue (2 * body.data.length + 2) 0 body.data with
  | none => (book, some DecodeError.malformed)
  | some (v, _) => unmarshalBook v book

/-! ## `mgo`: the `books` collection behind a session -/

/-- The errors of the driver the handlers tell apart: `mgo.ErrNotFound`, a
duplicate-key error (the ones `mgo.IsDup` recognises), and any other failure of
the store or of the connection to it. -/
inductive MgoError where
  | ErrNotFound
  | DupKey
  | Failure
deriving DecidableEq

/-- Function `mgo.IsDup(err)`. -/
def IsDup (e : MgoError) : Bool :=
  e = MgoError.DupKey

/-- What a handler reaches through its `*mgo.Session`: the documents of
collection `books` of database `store`, in natural order; whether the collection
has the unique index on `isbn`; and whether the store fails the operation the
handler is about to issue (`down`). -/
structure Session where
  books : List Doc
  uniqueIndex : Bool
  down : Bool
deriving DecidableEq

/-- The selector `bson.M{"isbn": isbn}`. -/
def matchesISBN (isbn : String) (d : Doc) : Bool :=
  d.isbn = isbn

/-- Splits the collection at the first document the selector matches. -/
def splitFirst (isbn : String) : List Doc → Option (List Doc × Doc × List Doc)
  | [] => none
  | d :: ds =>
    if matchesISBN isbn d then some ([], d, ds)
    else
      match splitFirst isbn ds with
      | some (pre, x, post) => some (d :: pre, x, post)
      | none => none

/-- The effect of `DropDups: true` when the index is built: of the documents
with the same `isbn` only the first is kept. -/
def dropDups : List Doc → List Doc
  | [] => []
  | d :: ds => d :: (dropDups ds).filter (fun x => !matchesISBN d.isbn x)

/-- The call `c.EnsureIndex(index)` for the index of `ensureIndex`: key `isbn`, unique,
dropping duplicates. Every document of the collection has the field, so the
sparse index covers them all. -/
def EnsureIndex (s : Session) : Session × Option MgoError :=
  if s.down then (s, some MgoError.Failure)
  else ({ s with books := dropDups s.books, uniqueIndex := true }, none)

/-- Function `ensureIndex`: builds the index and panics when that fails. The
result is `none` for the panic. -/
def ensureIndex (s : Session) : Option Session :=
  match EnsureIndex s with
  | (_, some _) => none
  | (s, none) => some s

/-- The call `c.Insert(doc)`. With the unique index the store refuses a document whose
`isbn` is already in the collection. -/
def Insert (s : Session) (doc : Doc) : Session × Option MgoError :=
  if s.down then (s, some MgoError.Failure)
  else if s.uniqueIndex ∧ s.books.any (matchesISBN doc.isbn) then (s, some MgoError.DupKey)
  else ({ s with books := s.books ++ [doc] }, none)

/-- The call `c.Find(bson.M{}).All(&result)` where `result` is a `[]Book`. The slice is
`none` when nil. `All` appends the decoded documents to the slice cut to length
zero; cutting a nil slice gives a nil slice, so with no document a nil slice
stays nil. -/
def FindAll (s : Session) (result : Option (List Book)) :
    Option (List Book) × Option MgoError :=
  if s.down then (result, some MgoError.Failure)
  else
    match s.books with
    | [] => (result.map (fun _ => []), none)
    | d :: ds => (some ((d :: ds).map bsonUnmarshal), none)

/-- The call `c.Find(bson.M{"isbn": isbn}).One(&book)`: decodes the first matching
document into `book`; with no matching document it returns `ErrNotFound` and
leaves `book` alone. -/
def FindOne (s : Session) (isbn : String) (book : Book) : Book × Option MgoError :=
  if s.down then (book, some MgoError.Failure)
  else
    match s.books.find? (matchesISBN isbn) with
    | none => (book, some MgoError.ErrNotFound)
    | some d => (bsonUnmarshal d, none)

/-- The call `c.Update(bson.M{"isbn": isbn}, &book)`: replaces the first matching
document by the new one. With the unique index the store refuses the
replacement when another document already has the new `isbn`. -/
def Update (s : Session) (isbn : String) (doc : Doc) : Session × Option MgoError :=
  if s.down then (s, some MgoError.Failure)
  else
    match splitFirst isbn s.books with
    | none => (s, some MgoError.ErrNotFound)
    | some (pre, _, post) =>
      if s.uniqueIndex ∧ (pre ++ post).any (matchesISBN doc.isbn) then
        (s, some MgoError.DupKey)
      else ({ s with books := pre ++ doc :: post }, none)

/-- The call `c.Remove(bson.M{"isbn": isbn})`: removes the first matching document. -/
def Remove (s : Session) (isbn : String) : Session × Option MgoError :=
  if s.down then (s, some MgoError.Failure)
  else
    match splitFirst isbn s.books with
    | none => (s, some MgoError.ErrNotFound)
    | some (pre, _, post) => ({ s with books := pre ++ post }, none)

/-! ## The handlers (`main.go`, lines 89–216) -/

/-- What a handler reads from its `*http.Request`: `r.URL.Path`, the bytes of
`r.Body`, and `pat.Param(r, "isbn")` as the router bound it (unused on the
routes without the parameter). -/
structure Request where
  Path : String
  Body : String
  isbn : String
deriving DecidableEq

/-- Handler `allBooks`. -/
def allBooks (tbl : Nat → Bool) (s : Session) (w : ResponseWriter) (_r : Request) :
    Session × ResponseWriter :=
  let books : Option (List Book) := none
  match FindAll s books with
  | (_, some _) => (s, ErrorWithJSON tbl w "Database error" 500)
  | (books, none) => (s, ResponseWithJSON w (MarshalIndentBooks books) 200)

/-- Handler `addBook`. A decoding error writes the 400 response but does not
return: the insert is attempted all the same. -/
def addBook (tbl : Nat → Bool) (s : Session) (w : ResponseWriter) (r : Request) :
    Session × ResponseWriter :=
  let book : Book := Book.zero
  match Decode r.Body book with
  | (book, err) =>
    let w := match err with
      | some _ => ErrorWithJSON tbl w "Incorrect request body" 400
      | none => w
    match Insert s (bsonMarshal book) with
    | (s, some e) =>
      if IsDup e then (s, ErrorWithJSON tbl w "Book with ISBN already exists" 400)
      else (s, ErrorWithJSON tbl w "Database Error" 500)
    | (s, none) =>
      let w := w.SetHeader "Content-Type" "application/json"
      let w := w.SetHeader "Location" (r.Path ++ "/" ++ book.ISBN)
      (s, w.WriteHeader 201)

/-- Handler `bookByISBN`. -/
def bookByISBN (tbl : Nat → Bool) (s : Session) (w : ResponseWriter) (r : Request) :
    Session × ResponseWriter :=
  let isbn := r.isbn
  let book : Book := Book.zero
  match FindOne s isbn book with
  | (_, some _) => (s, ErrorWithJSON tbl w "Database error" 500)
  | (book, none) =>
    if book.ISBN = "" then (s, ErrorWithJSON tbl w "Book not found" 404)
    else (s, ResponseWithJSON w (MarshalIndentBook book) 200)

/-- Handler `updateBook`. -/
def updateBook (tbl : Nat → Bool) (s : Session) (w : ResponseWriter) (r : Request) :
    Session × ResponseWriter :=
  let isbn := r.isbn
  let book : Book := Book.zero
  match Decode r.Body book with
  | (_, some _) => (s, ErrorWithJSON tbl w "Incorrect body" 400)
  | (book, none) =>
    match Update s isbn (bsonMarshal book) with
    | (s, some MgoError.ErrNotFound) => (s, ErrorWithJSON tbl w "Book not found" 404)
    | (s, some _) => (s, ErrorWithJSON tbl w "Database error" 500)
    | (s, none) => (s, w.WriteHeader 204)

/-- Handler `deleteBook`. -/
def deleteBook (tbl : Nat → Bool) (s : Session) (w : ResponseWriter) (r : Request) :
    Session × ResponseWriter :=
  let isbn := r.isbn
  match Remove s isbn with
  | (s, some MgoError.ErrNotFound) => (s, ErrorWithJSON tbl w "Book not found" 404)
  | (s, some _) => (s, ErrorWithJSON tbl w "Database error" 500)
  | (s, none) => (s, w.WriteHeader 204)

/-! ## Serving a sequence of requests -/

/-- The five routes `main` registers. -/
inductive Route where
  | list
  | create
  | get
  | update
  | delete
deriving DecidableEq

/-- One request as the service sees it: the route the router picked, the
request, and whether the store fails the operation it triggers. -/
structure Call where
  route : Route
  request : Request
  storeDown : Bool

/-- The handler `main` registered for the route. -/
def handler (tbl : Nat → Bool) : Route → Session → ResponseWriter → Request →
    Session × ResponseWriter
  | Route.list => allBooks tbl
  | Route.create => addBook tbl
  | Route.get => bookByISBN tbl
  | Route.update => updateBook tbl
  | Route.delete => deleteBook tbl

/-- Serves one request: the session afterwards. -/
def serve (tbl : Nat → Bool) (s : Session) (c : Call) : Session :=
  (handler tbl c.route { s with down := c.storeDown } ResponseWriter.fresh c.request).1

/-- Serves requests one after the other. -/
def serveAll (tbl : Nat → Bool) (s : Session) (cs : List Call) : Session :=
  cs.foldl (serve tbl) s

/-- Function `main`: dials the store (`dial` is `none` when that fails), builds
the index and serves the requests. The result is `none` when `main` panics
before it serves. -/
def main (tbl : Nat → Bool) (dial : Option Session) (cs : List Call) : Option Session :=
  match dial with
  | none => none
  | some session =>
    match ensureIndex session with
    | none => none
    | some s => some (serveAll tbl s cs)

/-! ## `goji.io` and `goji.io/pat`: the router -/

/-- What the router and the handlers read from an `*http.Request`: `r.Method`,
`r.URL.Path`, `r.URL.EscapedPath()` (the path as it was sent, percent-escapes
still in place) and the bytes of `r.Body`. -/
structure HttpRequest where
  Method : String
  Path : String
  EscapedPath : String
  Body : String
deriving DecidableEq

/-- The bytes of the UTF-8 encoding of a rune. -/
def utf8Encode (c : Char) : List Nat :=
  let n := c.toNat
  if n < 0x80 then [n]
  else if n < 0x800 then [0xC0 + n / 64, 0x80 + n % 64]
  else if n < 0x10000 then [0xE0 + n / 4096, 0x80 + n / 64 % 64, 0x80 + n % 64]
  else [0xF0 + n / 262144, 0x80 + n / 4096 % 64, 0x80 + n / 64 % 64, 0x80 + n % 64]

/-- Reads UTF-8 bytes as runes. The state is the number of continuation bytes
still expected, the value gathered so far, and the smallest value the sequence
in progress may encode; `none` when the bytes are not well-formed UTF-8. -/
def utf8Decode : Nat → Nat → Nat → List Nat → Option (List Char)
  | 0, _, _, [] => some []
  | _ + 1, _, _, [] => none
  | 0, _, _, b :: rest =>
    if b < 0x80 then (utf8Decode 0 0 0 rest).map (fun cs => Char.ofNat b :: cs)
    else if 0xC0 ≤ b ∧ b < 0xE0 then utf8Decode 1 (b % 0x20) 0x80 rest
    else if 0xE0 ≤ b ∧ b < 0xF0 then utf8Decode 2 (b % 0x10) 0x800 rest
    else if 0xF0 ≤ b ∧ b < 0xF8 then utf8Decode 3 (b % 0x08) 0x10000 rest
    else none
  | k + 1, acc, lo, b :: rest =>
    if 0x80 ≤ b ∧ b < 0xC0 then
      if k = 0 then
        if lo ≤ acc * 64 + b % 64 ∧ acc * 64 + b % 64 < 0x110000 ∧
            ¬ (0xD800 ≤ acc * 64 + b % 64 ∧ acc * 64 + b % 64 < 0xE000) then
          (utf8Decode 0 0 0 rest).map (fun cs => Char.ofNat (acc * 64 + b % 64) :: cs)
        else none
      else utf8Decode k (acc * 64 + b % 64) lo rest
    else none

/-- The bytes a path segment stands for: `%XX` is the byte with that
hexadecimal value, any other character stands for itself; `none` for a `%` that
is not followed by two hexadecimal digits. -/
def unescapeBytes : List Char → Option (List Nat)
  | [] => some []
  | c :: rest =>
    if c = '%' then
      match rest with
      | h1 :: h2 :: rest2 =>
        match hexVal h1, hexVal h2 with
        | some a, some b => (unescapeBytes rest2).map (fun bs => (16 * a + b) :: bs)
        | _, _ => none
      | _ => none
    else (unescapeBytes rest).map (fun bs => utf8Encode c ++ bs)

/-- Function `unescape` of `pat` (percent-decoding as in `net/url`). A segment
whose bytes are not UTF-8 text has no value here. -/
def unescape (seg : List Char) : Option String :=
  match unescapeBytes seg with
  | none => none
  | some bytes => (utf8Decode 0 0 0 bytes).map String.mk

/-- A compiled `pat` pattern of one of the two shapes `main` registers. With
`binding = false` the pattern is the literal path `literal`, as `/books`. With
`binding = true` it is `literal` followed by one binding that ends the pattern,
as `/books/:isbn` with the literal `/books/`: the break character of the
binding is then `/` and the literal after it is empty. -/
structure Pattern where
  methods : List String
  literal : String
  binding : Bool

/-- Function `pat.Get`: the pattern matches the methods GET and HEAD. -/
def pat.Get (literal : String) (binding : Bool) : Pattern := ⟨["GET", "HEAD"], literal, binding⟩

/-- Function `pat.Post`. -/
def pat.Post (literal : String) (binding : Bool) : Pattern := ⟨["POST"], literal, binding⟩

/-- Function `pat.Put`. -/
def pat.Put (literal : String) (binding : Bool) : Pattern := ⟨["PUT"], literal, binding⟩

/-- Function `pat.Delete`. -/
def pat.Delete (literal : String) (binding : Bool) : Pattern := ⟨["DELETE"], literal, binding⟩

/-- The path after the literal it starts with (`strings.HasPrefix` and the
slice that follows it in `Match`). -/
def cutLiteral : List Char → List Char → Option (List Char)
  | [], path => some path
  | _ :: _, [] => none
  | l :: lit, c :: path => if l = c then cutLiteral lit path else none

/-- Method `(*Pattern).Match` on the method and the escaped path of a request:
the value of the binding (the empty string for a pattern without one), or
`none` when the request does not match. A binding takes the characters up to
the next `/`; it does not match the empty string, the path must end where the
binding ends, and a value that cannot be unescaped is no match. -/
def Pattern.Match (p : Pattern) (method path : String) : Option String :=
  if p.methods.contains method then
    if p.binding then
      match cutLiteral p.literal.data path.data with
      | none => none
      | some rest =>
        match rest.span (fun c => c != '/') with
        | ([], _) => none
        | (seg, []) => unescape seg
        | (_, _ :: _) => none
    else if path = p.literal then some ""
    else none
  else none

/-- The routes of the mux, in the order in which `main` registers them
(`main.go`, lines 63–67). -/
def routes : List (Pattern × Route) :=
  [(pat.Get "/books" false, Route.list),
   (pat.Post "/books" false, Route.create),
   (pat.Get "/books/" true, Route.get),
   (pat.Put "/books/" true, Route.update),
   (pat.Delete "/books/" true, Route.delete)]

/-- The first route that matches the request, with the value bound to `isbn`. -/
def route (method path : String) : List (Pattern × Route) → Option (Route × String)
  | [] => none
  | (p, rt) :: rest =>
    match p.Match method path with
    | some isbn => some (rt, isbn)
    | none => route method path rest

/-- Function `http.NotFound`, the answer of the mux to a request that matches
no route. -/
def NotFound (w : ResponseWriter) : ResponseWriter :=
  let w := w.SetHeader "Content-Type" "text/plain; charset=utf-8"
  let w := w.SetHeader "X-Content-Type-Options" "nosniff"
  let w := w.WriteHeader 404
  w.Write "404 page not found\n"

/-- Method `(*Mux).ServeHTTP` for the mux `main` builds: the request goes to the
handler of the first matching route, with the bound value as
`pat.Param(r, "isbn")`, or is answered by `http.NotFound`. The body of the
answer to a HEAD request is not sent. -/
def ServeHTTP (tbl : Nat → Bool) (s : Session) (req : HttpRequest) : Session × ResponseWriter :=
  match route req.Method req.EscapedPath routes with
  | none => (s, NotFound ResponseWriter.fresh)
  | some (rt, isbn) =>
    match handler tbl rt s ResponseWriter.fresh ⟨req.Path, req.Body, isbn⟩ with
    | (s1, w) =>
      if req.Method = "HEAD" then (s1, { w.finish with body := "" }) else (s1, w.finish)

/-- One byte written as a percent escape. -/
def escapeByte (b : Nat) : List Char := ['%', lowerhex (b / 16), lowerhex (b % 16)]

/-- A percent-encoding of a text: every byte of its UTF-8 form is written as
an escape. -/
def escapeAll (s : String) : String :=
  String.mk ((s.data.flatMap utf8Encode).flatMap escapeByte)

/-- No two documents of the collection carry the same `isbn`. -/
def UniqueISBN (books : List Doc) : Prop :=
  (books.map Doc.isbn).Nodup

/-- The collection holds a document with this `isbn`. -/
def Holds (books : List Doc) (isbn : String) : Prop :=
  ∃ d ∈ books, d.isbn = isbn

instance (books : List Doc) : Decidable (UniqueISBN books) :=
  inferInstanceAs (Decidable (books.map Doc.isbn).Nodup)

instance (books : List Doc) (isbn : String) : Decidable (Holds books isbn) :=
  inferInstanceAs (Decidable (∃ d ∈ books, d.isbn = isbn))

/-- The state in which `main` serves requests: the unique index on `isbn` is in
place and the collection respects it. -/
def Indexed (s : Session) : Prop :=
  s.uniqueIndex = true ∧ UniqueISBN s.books

/-- The JSON value the scanner delimits in the indented encoding of a book. -/
def bookValue (b : Book) : JValue :=
  JValue.object [(['I', 'S', 'B', 'N'], JValue.string b.ISBN.data),
    (['T', 'i', 't', 'l', 'e'], JValue.string b.Title.data),
    (['A', 'u', 't', 'h', 'o', 'r', 's'], JValue.string b.Authors.data),
    (['P', 'r', 'i', 'c', 'e'], JValue.string b.Price.data)]

/-- What the three scanning functions guarantee for one amount of fuel: a
result leaves less input than it was given, and any amount of fuel that is at
least twice the number of runes consumed gives the same result. -/
def FuelFree (f : Nat) : Prop :=
  (∀ d cs v r, parseValue f d cs = some (v, r) → r.length < cs.length ∧
    ∀ g, 2 * (cs.length - r.length) ≤ g + 1 → parseValue g d cs = some (v, r)) ∧
  (∀ d cs ms r, parseMembers f d cs = some (ms, r) → r.length < cs.length ∧
    ∀ g, 2 * (cs.length - r.length) ≤ g → parseMembers g d cs = some (ms, r)) ∧
  (∀ d cs vs r, parseElems f d cs = some (vs, r) → r.length < cs.length ∧
    ∀ g, 2 * (cs.length - r.length) ≤ g → parseElems g d cs = some (vs, r))

/-- Function `json.Valid`: the whole text is one JSON value, white space around
it apart. -/
def Valid (text : String) : Bool :=
  match parseValue (2 * text.data.length + 2) 0 text.data with
  | some (_, rest) => skipSpace rest = []
  | none => false

/-! ## Decoding what `MarshalIndent` wrote -/

theorem hexVal_lowerhex (k : Nat) (h : k < 16) : hexVal (lowerhex k) = some k := by
  interval_cases k <;> decide

theorem char_eq_of_toNat {c : Char} {n : Nat} (h : c.toNat = n) : c = Char.ofNat n := by
  rw [← h, Char.ofNat_toNat]

theorem skipSpace_replicate (k : Nat) (cs : List Char) :
    skipSpace (List.replicate k ' ' ++ cs) = skipSpace cs := by
  induction k with
  | zero => simp
  | succ k ih => simp [List.replicate_succ, skipSpace, isSpace, ih]

theorem skipSpace_newline (d : Nat) (cs : List Char) :
    skipSpace (newline d ++ cs) = skipSpace cs := by
  simp [newline, skipSpace, isSpace, skipSpace_replicate]

theorem unquote_lit (c : Char) (l : List StrItem) :
    unquote (StrItem.lit c :: l) = c :: unquote l := by
  simp [unquote]

theorem unquote_esc (n : Nat) (h : isSurrogate n = false) (l : List StrItem) :
    unquote (StrItem.esc n :: l) = Char.ofNat n :: unquote l := by
  cases l with
  | nil => simp [unquote, h]
  | cons x xs =>
    cases x with
    | lit c => simp [unquote, h]
    | esc m => simp [unquote, h]

theorem scanString_cons (c : Char) (cs : List Char) :
    scanString (c :: cs) =
    if c = '"' then some ([], cs)
    else if c = '\\' then
      match cs with
      | [] => none
      | e :: cs1 =>
        if e = 'u' then
          match cs1 with
          | h1 :: h2 :: h3 :: h4 :: cs2 =>
            match hexVal h1, hexVal h2, hexVal h3, hexVal h4 with
            | some x1, some x2, some x3, some x4 =>
              match scanString cs2 with
              | some (items, rest) =>
                some (StrItem.esc (x1 * 4096 + x2 * 256 + x3 * 16 + x4) :: items, rest)
              | none => none
            | _, _, _, _ => none
          | _ => none
        else
          match simpleEscape e with
          | some ch =>
            match scanString cs1 with
            | some (items, rest) => some (StrItem.lit ch :: items, rest)
            | none => none
          | none => none
    else if c.toNat < 0x20 then none
    else
      match scanString cs with
      | some (items, rest) => some (StrItem.lit c :: items, rest)
      | none => none := by
  conv => lhs; unfold scanString

theorem scanString_plain (c : Char) (tail : List Char) (items : List StrItem) (rest : List Char)
    (h : scanString tail = some (items, rest))
    (h1 : c ≠ '"') (h2 : c ≠ '\\') (h3 : ¬ c.toNat < 32) :
    scanString (c :: tail) = some (StrItem.lit c :: items, rest) := by
  rw [scanString_cons]
  simp [h1, h2, h3, h]

theorem scanString_simple (e ch : Char) (tail : List Char) (items : List StrItem)
    (rest : List Char) (h : scanString tail = some (items, rest))
    (he : simpleEscape e = some ch) (hu : e ≠ 'u') :
    scanString ('\\' :: e :: tail) = some (StrItem.lit ch :: items, rest) := by
  rw [scanString_cons]
  simp [hu, he, h]

theorem scanString_u (h1 h2 h3 h4 : Char) (x1 x2 x3 x4 : Nat) (tail : List Char)
    (items : List StrItem) (rest : List Char) (h : scanString tail = some (items, rest))
    (e1 : hexVal h1 = some x1) (e2 : hexVal h2 = some x2) (e3 : hexVal h3 = some x3)
    (e4 : hexVal h4 = some x4) :
    scanString ('\\' :: 'u' :: h1 :: h2 :: h3 :: h4 :: tail) =
      some (StrItem.esc (x1 * 4096 + x2 * 256 + x3 * 16 + x4) :: items, rest) := by
  rw [scanString_cons]
  simp [e1, e2, e3, e4, h]

theorem scanString_escapeRune (c : Char) (tail : List Char) (items : List StrItem)
    (rest : List Char) (h : scanString tail = some (items, rest)) :
    ∃ it, scanString (jsonEscapeRune c ++ tail) = some (it :: items, rest) ∧
      ∀ l, unquote (it :: l) = c :: unquote l := by
  unfold jsonEscapeRune
  split_ifs with a1 a2 a3 a4 a5 a6 a7 a8 a9
  · -- plain ASCII
    exact ⟨StrItem.lit c, scanString_plain c tail items rest h a2.2.1 a2.2.2.2.2.2 (by omega),
      unquote_lit c⟩
  · -- backslash or quote
    refine ⟨StrItem.lit c, ?_, unquote_lit c⟩
    rcases a3 with rfl | rfl
    · exact scanString_simple _ _ tail items rest h (by decide) (by decide)
    · exact scanString_simple _ _ tail items rest h (by decide) (by decide)
  · refine ⟨StrItem.lit c, ?_, unquote_lit c⟩
    rw [char_eq_of_toNat a4]
    exact scanString_simple _ _ tail items rest h (by decide) (by decide)
  · refine ⟨StrItem.lit c, ?_, unquote_lit c⟩
    rw [char_eq_of_toNat a5]
    exact scanString_simple _ _ tail items rest h (by decide) (by decide)
  · refine ⟨StrItem.lit c, ?_, unquote_lit c⟩
    rw [char_eq_of_toNat a6]
    exact scanString_simple _ _ tail items rest h (by decide) (by decide)
  · refine ⟨StrItem.lit c, ?_, unquote_lit c⟩
    rw [char_eq_of_toNat a7]
    exact scanString_simple _ _ tail items rest h (by decide) (by decide)
  · refine ⟨StrItem.lit c, ?_, unquote_lit c⟩
    rw [char_eq_of_toNat a8]
    exact scanString_simple _ _ tail items rest h (by decide) (by decide)
  · -- \u00XY
    refine ⟨StrItem.esc c.toNat, ?_, ?_⟩
    · have e := scanString_u '0' '0' (lowerhex (c.toNat / 16)) (lowerhex (c.toNat % 16))
        0 0 (c.toNat / 16) (c.toNat % 16) tail items rest h (by decide) (by decide)
        (hexVal_lowerhex _ (by omega)) (hexVal_lowerhex _ (by omega))
      have : 0 * 4096 + 0 * 256 + c.toNat / 16 * 16 + c.toNat % 16 = c.toNat := by omega
      rw [this] at e
      exact e
    · intro l
      rw [unquote_esc _ (by simp [isSurrogate]; omega), Char.ofNat_toNat]
  · -- the line and paragraph separators
    refine ⟨StrItem.esc c.toNat, ?_, ?_⟩
    · have e := scanString_u '2' '0' '2' (lowerhex (c.toNat % 16))
        2 0 2 (c.toNat % 16) tail items rest h (by decide) (by decide) (by decide)
        (hexVal_lowerhex _ (by omega))
      have : 2 * 4096 + 0 * 256 + 2 * 16 + c.toNat % 16 = c.toNat := by omega
      rw [this] at e
      exact e
    · intro l
      rw [unquote_esc _ (by simp [isSurrogate]; omega), Char.ofNat_toNat]
  · -- other runes
    refine ⟨StrItem.lit c, scanString_plain c tail items rest h ?_ ?_ (by omega), unquote_lit c⟩
    · rintro rfl; exact a1 (by decide)
    · rintro rfl; exact a1 (by decide)

theorem scanString_jsonEscape (s rest : List Char) :
    ∃ items, scanString (jsonEscape s ++ '"' :: rest) = some (items, rest) ∧
      unquote items = s := by
  induction s with
  | nil => exact ⟨[], by simp [jsonEscape, scanString_cons], by simp [unquote]⟩
  | cons c cs ih =>
    obtain ⟨items, h1, h2⟩ := ih
    obtain ⟨it, h3, h4⟩ := scanString_escapeRune c _ items rest h1
    refine ⟨it :: items, ?_, ?_⟩
    · simpa [jsonEscape, List.append_assoc] using h3
    · rw [h4, h2]

theorem parseValue_succ (fuel depth : Nat) (cs : List Char) :
    parseValue (fuel + 1) depth cs =
    match skipSpace cs with
    | [] => none
    | c :: rest =>
      if c = '"' then
        match scanString rest with
        | some (items, r) => some (JValue.string (unquote items), r)
        | none => none
      else if c = '\x7b' then
        if depth + 1 > maxNestingDepth then none
        else
          match skipSpace rest with
          | [] => none
          | c1 :: r1 =>
            if c1 = '\x7d' then some (JValue.object [], r1)
            else
              match parseMembers fuel (depth + 1) (c1 :: r1) with
              | some (ms, r) => some (JValue.object ms, r)
              | none => none
      else if c = '[' then
        if depth + 1 > maxNestingDepth then none
        else
          match skipSpace rest with
          | [] => none
          | c1 :: r1 =>
            if c1 = ']' then some (JValue.array [], r1)
            else
              match parseElems fuel (depth + 1) (c1 :: r1) with
              | some (vs, r) => some (JValue.array vs, r)
              | none => none
      else if c = 't' then
        match expectWord ['r', 'u', 'e'] rest with
        | some r => some (JValue.bool true, r)
        | none => none
      else if c = 'f' then
        match expectWord ['a', 'l', 's', 'e'] rest with
        | some r => some (JValue.bool false, r)
        | none => none
      else if c = 'n' then
        match expectWord ['u', 'l', 'l'] rest with
        | some r => some (JValue.null, r)
        | none => none
      else if c = '-' ∨ isDigit c then
        match scanNumber (c :: rest) with
        | some r => some (JValue.number ((c :: rest).take ((c :: rest).length - r.length)), r)
        | none => none
      else none := by
  conv => lhs; unfold parseValue

theorem parseMembers_succ (fuel depth : Nat) (cs : List Char) :
    parseMembers (fuel + 1) depth cs =
    match skipSpace cs with
    | [] => none
    | c :: rest =>
      if c = '"' then
        match scanString rest with
        | none => none
        | some (items, r1) =>
          match skipSpace r1 with
          | [] => none
          | c2 :: r2 =>
            if c2 = ':' then
              match parseValue fuel depth r2 with
              | none => none
              | some (v, r3) =>
                match skipSpace r3 with
                | [] => none
                | c3 :: r4 =>
                  if c3 = ',' then
                    match parseMembers fuel depth r4 with
                    | some (ms, r) => some ((unquote items, v) :: ms, r)
                    | none => none
                  else if c3 = '\x7d' then some ([(unquote items, v)], r4)
                  else none
            else none
      else none := by
  conv => lhs; unfold parseMembers

theorem skipSpace_cons (c : Char) (cs : List Char) (h : isSpace c = false) :
    skipSpace (c :: cs) = c :: cs := by
  simp [skipSpace, h]

theorem parseValue_string (fuel depth : Nat) (s : String) (rest : List Char) :
    parseValue (fuel + 1) depth (' ' :: (jsonString s ++ rest)) =
      some (JValue.string s.data, rest) := by
  obtain ⟨items, h1, h2⟩ := scanString_jsonEscape s.data rest
  rw [parseValue_succ]
  have hs : skipSpace (' ' :: (jsonString s ++ rest)) =
      '"' :: (jsonEscape s.data ++ '"' :: rest) := by
    simp [skipSpace, isSpace, jsonString]
  rw [hs]
  simp [h1, h2]

theorem parseMembers_newline (fuel depth d : Nat) (cs : List Char) :
    parseMembers fuel depth (newline d ++ cs) = parseMembers fuel depth cs := by
  cases fuel with
  | zero => simp [parseMembers]
  | succ f => rw [parseMembers_succ, parseMembers_succ, skipSpace_newline]

theorem parseMembers_more (fuel depth : Nat) (name : List Char) (hn : jsonEscape name = name)
    (v : String) (r4 : List Char) :
    parseMembers (fuel + 2) depth (encodeMember name v ++ ',' :: r4) =
      match parseMembers (fuel + 1) depth r4 with
      | some (ms, r) => some ((name, JValue.string v.data) :: ms, r)
      | none => none := by
  obtain ⟨items, h1, h2⟩ := scanString_jsonEscape name (':' :: ' ' :: (jsonString v ++ ',' :: r4))
  rw [hn] at h1
  rw [parseMembers_succ]
  have hs : skipSpace (encodeMember name v ++ ',' :: r4) =
      '"' :: (name ++ '"' :: ':' :: ' ' :: (jsonString v ++ ',' :: r4)) := by
    simp [encodeMember, skipSpace, isSpace]
  rw [hs]
  simp only [if_true, h1]
  simp [skipSpace, isSpace, parseValue_string, h2]

theorem parseMembers_last (fuel depth d : Nat) (name : List Char)
    (hn : jsonEscape name = name) (v : String) (r : List Char) :
    parseMembers (fuel + 2) depth (encodeMember name v ++ (newline d ++ '\x7d' :: r)) =
      some ([(name, JValue.string v.data)], r) := by
  obtain ⟨items, h1, h2⟩ :=
    scanString_jsonEscape name (':' :: ' ' :: (jsonString v ++ (newline d ++ '\x7d' :: r)))
  rw [hn] at h1
  rw [parseMembers_succ]
  have hs : skipSpace (encodeMember name v ++ (newline d ++ '\x7d' :: r)) =
      '"' :: (name ++ '"' :: ':' :: ' ' :: (jsonString v ++ (newline d ++ '\x7d' :: r))) := by
    simp [encodeMember, skipSpace, isSpace]
  rw [hs]
  simp only [if_true, h1]
  simp [skipSpace, isSpace, parseValue_string, h2, skipSpace_replicate]

theorem parseValue_object (fuel depth : Nat) (cs r1 r : List Char) (c1 : Char)
    (ms : List (List Char × JValue)) (hd : depth < maxNestingDepth)
    (hsk : skipSpace cs = c1 :: r1) (hc : c1 ≠ '\x7d')
    (hm : parseMembers fuel (depth + 1) (c1 :: r1) = some (ms, r)) :
    parseValue (fuel + 1) depth ('\x7b' :: cs) = some (JValue.object ms, r) := by
  rw [parseValue_succ, skipSpace_cons _ _ (by decide)]
  have hdep : ¬ depth + 1 > maxNestingDepth := by omega
  simp [hdep, hsk, hc, hm]

theorem parseValue_encodeBook (fuel depth d : Nat) (hd : depth < maxNestingDepth) (b : Book)
    (rest : List Char) :
    parseValue (fuel + 6) depth (encodeBook d b ++ rest) = some (bookValue b, rest) := by
  have hs : encodeBook d b ++ rest =
      '\x7b' :: (newline (d + 1) ++ (encodeMember ['I', 'S', 'B', 'N'] b.ISBN ++
      ',' :: (newline (d + 1) ++ (encodeMember ['T', 'i', 't', 'l', 'e'] b.Title ++
      ',' :: (newline (d + 1) ++ (encodeMember ['A', 'u', 't', 'h', 'o', 'r', 's'] b.Authors ++
      ',' :: (newline (d + 1) ++ (encodeMember ['P', 'r', 'i', 'c', 'e'] b.Price ++
      (newline d ++ '\x7d' :: rest))))))))) := by
    simp [encodeBook, List.append_assoc]
  rw [hs]
  refine parseValue_object (fuel + 5) depth _
    ((['I', 'S', 'B', 'N'] ++ ('"' :: ':' :: ' ' :: jsonString b.ISBN)) ++
      ',' :: (newline (d + 1) ++ (encodeMember ['T', 'i', 't', 'l', 'e'] b.Title ++
      ',' :: (newline (d + 1) ++ (encodeMember ['A', 'u', 't', 'h', 'o', 'r', 's'] b.Authors ++
      ',' :: (newline (d + 1) ++ (encodeMember ['P', 'r', 'i', 'c', 'e'] b.Price ++
      (newline d ++ '\x7d' :: rest))))))))
    rest '"' _ hd ?_ (by decide) ?_
  · rw [skipSpace_newline]
    exact skipSpace_cons '"' _ (by decide)
  · show parseMembers (fuel + 3 + 2) (depth + 1)
      (encodeMember ['I', 'S', 'B', 'N'] b.ISBN ++
      ',' :: (newline (d + 1) ++ (encodeMember ['T', 'i', 't', 'l', 'e'] b.Title ++
      ',' :: (newline (d + 1) ++ (encodeMember ['A', 'u', 't', 'h', 'o', 'r', 's'] b.Authors ++
      ',' :: (newline (d + 1) ++ (encodeMember ['P', 'r', 'i', 'c', 'e'] b.Price ++
      (newline d ++ '\x7d' :: rest)))))))) = _
    rw [parseMembers_more (fuel + 3) (depth + 1) _ (by decide), parseMembers_newline,
      parseMembers_more (fuel + 2) (depth + 1) _ (by decide), parseMembers_newline,
      parseMembers_more (fuel + 1) (depth + 1) _ (by decide), parseMembers_newline,
      parseMembers_last fuel (depth + 1) d _ (by decide)]

theorem unmarshalBook_bookValue (b : Book) :
    unmarshalBook (bookValue b) Book.zero = (b, none) := by
  have e1 : (['I', 'S', 'B', 'N'] : List Char).map foldRune = ['I', 'S', 'B', 'N'] := by decide
  have e2 : (['T', 'i', 't', 'l', 'e'] : List Char).map foldRune = ['T', 'I', 'T', 'L', 'E'] := by
    decide
  have e3 : (['A', 'u', 't', 'h', 'o', 'r', 's'] : List Char).map foldRune =
      ['A', 'U', 'T', 'H', 'O', 'R', 'S'] := by decide
  have e4 : (['P', 'r', 'i', 'c', 'e'] : List Char).map foldRune = ['P', 'R', 'I', 'C', 'E'] := by
    decide
  cases b
  simp only [unmarshalBook, bookValue, List.foldl, storeMember, e1, e2, e3, e4]
  simp [Book.zero]

/-- Decoding the indented encoding of a book gives the book back, without
error. -/
theorem Decode_MarshalIndentBook (b : Book) :
    Decode (MarshalIndentBook b) Book.zero = (b, none) := by
  unfold Decode
  have hlen : ∃ k, 2 * (MarshalIndentBook b).data.length + 2 = k + 6 :=
    ⟨2 * (MarshalIndentBook b).data.length - 4, by
      have : 2 ≤ (MarshalIndentBook b).data.length := by
        simp only [MarshalIndentBook, encodeBook, List.length_cons, List.length_append]
        omega
      omega⟩
  obtain ⟨k, hk⟩ := hlen
  rw [hk]
  have h := parseValue_encodeBook k 0 0 (by decide) b []
  rw [List.append_nil] at h
  have hd : (MarshalIndentBook b).data = encodeBook 0 b := rfl
  rw [hd, h]
  exact unmarshalBook_bookValue b

/-! ## The fuel of the scanner does not matter -/

theorem skipSpace_length (cs : List Char) : (skipSpace cs).length ≤ cs.length := by
  induction cs with
  | nil => simp [skipSpace]
  | cons c cs ih =>
    simp only [skipSpace]
    split_ifs
    · simp only [List.length_cons]; omega
    · exact Nat.le_refl _

theorem skipSpace_eq_cons {cs rest : List Char} {c : Char} (h : skipSpace cs = c :: rest) :
    rest.length < cs.length := by
  have := skipSpace_length cs
  rw [h] at this
  simp only [List.length_cons] at this
  omega

theorem skipDigits_length (cs : List Char) : (skipDigits cs).length ≤ cs.length := by
  induction cs with
  | nil => simp [skipDigits]
  | cons c cs ih =>
    simp only [skipDigits]
    split_ifs
    · simp only [List.length_cons]; omega
    · exact Nat.le_refl _

theorem scanString_length : ∀ (n : Nat) (cs : List Char) (items : List StrItem) (r : List Char),
    cs.length ≤ n → scanString cs = some (items, r) → r.length < cs.length := by
  intro n
  induction n with
  | zero =>
    intro cs items r hl h
    cases cs with
    | nil => simp [scanString] at h
    | cons c cs => simp at hl
  | succ n ih =>
    intro cs items r hl h
    cases cs with
    | nil => simp [scanString] at h
    | cons c cs =>
      rw [scanString_cons] at h
      simp only [List.length_cons] at hl ⊢
      split_ifs at h with h1 h2 h3
      · simp only [Option.some.injEq, Prod.mk.injEq] at h
        rw [← h.2]; omega
      · split at h
        · cases h
        · rename_i e cs1
          split_ifs at h with h4
          · split at h
            · rename_i a1 a2 a3 a4 cs2
              split at h
              · split at h
                · rename_i items' rest' hs
                  simp only [Option.some.injEq, Prod.mk.injEq] at h
                  have := ih cs2 items' rest' (by simp only [List.length_cons] at hl; omega) hs
                  rw [← h.2]
                  simp only [List.length_cons]
                  omega
                · cases h
              · cases h
            · cases h
          · split at h
            · split at h
              · rename_i items' rest' hs
                simp only [Option.some.injEq, Prod.mk.injEq] at h
                have := ih cs1 items' rest' (by simp only [List.length_cons] at hl; omega) hs
                rw [← h.2]
                simp only [List.length_cons]
                omega
              · cases h
            · cases h
      · split at h
        · rename_i items' rest' hs
          simp only [Option.some.injEq, Prod.mk.injEq] at h
          have := ih cs items' rest' (by omega) hs
          rw [← h.2]
          omega
        · cases h

theorem scanString_shorter {cs : List Char} {items : List StrItem} {r : List Char}
    (h : scanString cs = some (items, r)) : r.length < cs.length :=
  scanString_length cs.length cs items r (Nat.le_refl _) h

theorem expectWord_length : ∀ (w cs r : List Char), expectWord w cs = some r →
    r.length ≤ cs.length := by
  intro w
  induction w with
  | nil =>
    intro cs r h
    simp only [expectWord, Option.some.injEq] at h
    rw [h]
  | cons x w ih =>
    intro cs r h
    cases cs with
    | nil => simp [expectWord] at h
    | cons c cs =>
      simp only [expectWord] at h
      split_ifs at h
      have := ih cs r h
      simp only [List.length_cons]
      omega

theorem skipSign_length (cs : List Char) : (skipSign cs).length ≤ cs.length := by
  cases cs with
  | nil => simp [skipSign]
  | cons c cs =>
    simp only [skipSign]
    split_ifs
    · simp only [List.length_cons]; omega
    · exact Nat.le_refl _

theorem scanExp_length {cs r : List Char} (h : scanExp cs = some r) : r.length ≤ cs.length := by
  unfold scanExp at h
  split at h
  · simp only [Option.some.injEq] at h; rw [← h]
  · rename_i c r0
    split_ifs at h
    · split at h
      · cases h
      · rename_i d r2 hr1
        split_ifs at h
        simp only [Option.some.injEq] at h
        have h2 := skipDigits_length r2
        rw [h] at h2
        have h3 := skipSign_length r0
        rw [hr1] at h3
        simp only [List.length_cons] at h3 ⊢
        omega
    · simp only [Option.some.injEq] at h; rw [← h]

theorem scanFrac_length {cs r : List Char} (h : scanFrac cs = some r) : r.length ≤ cs.length := by
  unfold scanFrac at h
  split at h
  · simp only [Option.some.injEq] at h; rw [← h]
  · rename_i c r0
    split_ifs at h
    · split at h
      · cases h
      · rename_i d r2
        split_ifs at h
        have h1 := scanExp_length h
        have h2 := skipDigits_length r2
        simp only [List.length_cons]
        omega
    · exact scanExp_length h

theorem scanInt_length {cs r : List Char} (h : scanInt cs = some r) : r.length < cs.length := by
  unfold scanInt at h
  split at h
  · cases h
  · rename_i c r0
    split_ifs at h
    · have := scanFrac_length h
      simp only [List.length_cons]; omega
    · have h1 := scanFrac_length h
      have h2 := skipDigits_length r0
      simp only [List.length_cons]; omega

theorem scanNumber_length {cs r : List Char} (h : scanNumber cs = some r) :
    r.length < cs.length := by
  unfold scanNumber at h
  split at h
  · cases h
  · rename_i c r0
    split_ifs at h
    · have := scanInt_length h
      simp only [List.length_cons]; omega
    · exact scanInt_length h

theorem parseElems_succ (fuel depth : Nat) (cs : List Char) :
    parseElems (fuel + 1) depth cs =
    match parseValue fuel depth cs with
    | none => none
    | some (v, r1) =>
      match skipSpace r1 with
      | [] => none
      | c :: r2 =>
        if c = ',' then
          match parseElems fuel depth r2 with
          | some (vs, r) => some (v :: vs, r)
          | none => none
        else if c = ']' then some ([v], r2)
        else none := by
  conv => lhs; unfold parseElems

theorem fuelFree_value (f : Nat) (ih : FuelFree f) (d : Nat) (cs : List Char) (v : JValue)
    (r : List Char) (h : parseValue (f + 1) d cs = some (v, r)) :
    r.length < cs.length ∧
    ∀ g, 2 * (cs.length - r.length) ≤ g + 1 → parseValue g d cs = some (v, r) := by
  rw [parseValue_succ] at h
  split at h
  · cases h
  · rename_i c rest hsk
    have hlen := skipSpace_eq_cons hsk
    -- every branch but the two recursive ones does not look at the fuel
    have scalar : ∀ (e : Option (JValue × List Char)), e = some (v, r) →
        r.length ≤ rest.length →
        (∀ g, parseValue (g + 1) d cs = e) →
        r.length < cs.length ∧
        ∀ g, 2 * (cs.length - r.length) ≤ g + 1 → parseValue g d cs = some (v, r) := by
      intro e he hr hg
      refine ⟨by omega, ?_⟩
      intro g hgb
      obtain ⟨k, rfl⟩ : ∃ k, g = k + 1 := ⟨g - 1, by omega⟩
      rw [hg k, he]
    split_ifs at h with h1 h2 h3 h4 h5 h6 h7 h8 h9
    · -- string
      cases hs : scanString rest with
      | none => simp [hs] at h
      | some p =>
        obtain ⟨items, r'⟩ := p
        simp only [hs, Option.some.injEq, Prod.mk.injEq] at h
        have := scanString_shorter hs
        apply scalar (some (v, r)) rfl (by rw [← h.2]; omega)
        intro g
        rw [parseValue_succ, hsk]
        simp [h1, hs, h.1, h.2]
    · -- object
      split at h
      · cases h
      · rename_i c1 r1 hsk1
        have hlen1 := skipSpace_eq_cons hsk1
        split_ifs at h with hc1
        · simp only [Option.some.injEq, Prod.mk.injEq] at h
          apply scalar (some (v, r)) rfl (by rw [← h.2]; omega)
          intro g
          rw [parseValue_succ, hsk]
          simp [h1, h2, h3, hsk1, hc1, h.1, h.2]
        · cases hm : parseMembers f (d + 1) (c1 :: r1) with
          | none => simp [hm] at h
          | some p =>
            obtain ⟨ms, r'⟩ := p
            simp only [hm, Option.some.injEq, Prod.mk.injEq] at h
            obtain ⟨hlt, hfuel⟩ := ih.2.1 (d + 1) (c1 :: r1) ms r' hm
            obtain ⟨hv, hr⟩ := h
            subst hr
            simp only [List.length_cons] at hlt hfuel
            refine ⟨by omega, ?_⟩
            intro g hg
            obtain ⟨k, rfl⟩ : ∃ k, g = k + 1 := ⟨g - 1, by omega⟩
            rw [parseValue_succ, hsk]
            have := hfuel k (by omega)
            simp [h1, h2, h3, hsk1, hc1, this, hv]
    · -- array
      split at h
      · cases h
      · rename_i c1 r1 hsk1
        have hlen1 := skipSpace_eq_cons hsk1
        split_ifs at h with hc1
        · simp only [Option.some.injEq, Prod.mk.injEq] at h
          apply scalar (some (v, r)) rfl (by rw [← h.2]; omega)
          intro g
          rw [parseValue_succ, hsk]
          simp [h1, h2, h4, h5, hsk1, hc1, h.1, h.2]
        · cases hm : parseElems f (d + 1) (c1 :: r1) with
          | none => simp [hm] at h
          | some p =>
            obtain ⟨vs, r'⟩ := p
            simp only [hm, Option.some.injEq, Prod.mk.injEq] at h
            obtain ⟨hlt, hfuel⟩ := ih.2.2 (d + 1) (c1 :: r1) vs r' hm
            obtain ⟨hv, hr⟩ := h
            subst hr
            simp only [List.length_cons] at hlt hfuel
            refine ⟨by omega, ?_⟩
            intro g hg
            obtain ⟨k, rfl⟩ : ∃ k, g = k + 1 := ⟨g - 1, by omega⟩
            rw [parseValue_succ, hsk]
            have := hfuel k (by omega)
            simp [h1, h2, h4, h5, hsk1, hc1, this, hv]
    · -- true
      cases hs : expectWord ['r', 'u', 'e'] rest with
      | none => simp [hs] at h
      | some r' =>
        simp only [hs, Option.some.injEq, Prod.mk.injEq] at h
        have := expectWord_length _ _ _ hs
        apply scalar (some (v, r)) rfl (by rw [← h.2]; omega)
        intro g
        rw [parseValue_succ, hsk]
        simp [h1, h2, h4, h6, hs, h.1, h.2]
    · -- false
      cases hs : expectWord ['a', 'l', 's', 'e'] rest with
      | none => simp [hs] at h
      | some r' =>
        simp only [hs, Option.some.injEq, Prod.mk.injEq] at h
        have := expectWord_length _ _ _ hs
        apply scalar (some (v, r)) rfl (by rw [← h.2]; omega)
        intro g
        rw [parseValue_succ, hsk]
        simp [h1, h2, h4, h6, h7, hs, h.1, h.2]
    · -- null
      cases hs : expectWord ['u', 'l', 'l'] rest with
      | none => simp [hs] at h
      | some r' =>
        simp only [hs, Option.some.injEq, Prod.mk.injEq] at h
        have := expectWord_length _ _ _ hs
        apply scalar (some (v, r)) rfl (by rw [← h.2]; omega)
        intro g
        rw [parseValue_succ, hsk]
        simp [h1, h2, h4, h6, h7, h8, hs, h.1, h.2]
    · -- number
      cases hs : scanNumber (c :: rest) with
      | none => simp [hs] at h
      | some r' =>
        simp only [hs, Option.some.injEq, Prod.mk.injEq] at h
        obtain ⟨hv, hr⟩ := h
        subst hr
        have := scanNumber_length hs
        simp only [List.length_cons] at this
        apply scalar (some (v, r')) rfl (by omega)
        intro g
        rw [parseValue_succ, hsk]
        simp only [h1, h2, h4, h6, h7, h8, h9, hs, if_true, if_false, hv]

theorem fuelFree_members (f : Nat) (ih : FuelFree f) (d : Nat) (cs : List Char)
    (ms : List (List Char × JValue)) (r : List Char)
    (h : parseMembers (f + 1) d cs = some (ms, r)) :
    r.length < cs.length ∧
    ∀ g, 2 * (cs.length - r.length) ≤ g → parseMembers g d cs = some (ms, r) := by
  rw [parseMembers_succ] at h
  split at h
  · cases h
  · rename_i c rest hsk
    have hlen := skipSpace_eq_cons hsk
    split_ifs at h with h1
    cases hs : scanString rest with
    | none => simp [hs] at h
    | some p =>
      obtain ⟨items, r1⟩ := p
      have hl1 := scanString_shorter hs
      simp only [hs] at h
      split at h
      · cases h
      · rename_i c2 r2 hsk2
        have hlen2 := skipSpace_eq_cons hsk2
        split_ifs at h with h2
        cases hv : parseValue f d r2 with
        | none => simp [hv] at h
        | some q =>
          obtain ⟨v, r3⟩ := q
          obtain ⟨hl3, hfuel3⟩ := ih.1 d r2 v r3 hv
          simp only [hv] at h
          split at h
          · cases h
          · rename_i c3 r4 hsk3
            have hlen3 := skipSpace_eq_cons hsk3
            split_ifs at h with h3 h4
            · cases hm : parseMembers f d r4 with
              | none => simp [hm] at h
              | some p2 =>
                obtain ⟨ms', r'⟩ := p2
                obtain ⟨hl4, hfuel4⟩ := ih.2.1 d r4 ms' r' hm
                simp only [hm, Option.some.injEq, Prod.mk.injEq] at h
                obtain ⟨hms, hr⟩ := h
                subst hr
                refine ⟨by omega, ?_⟩
                intro g hg
                obtain ⟨k, rfl⟩ : ∃ k, g = k + 1 := ⟨g - 1, by omega⟩
                rw [parseMembers_succ, hsk]
                have e1 := hfuel3 k (by omega)
                have e2 := hfuel4 k (by omega)
                simp [h1, hs, hsk2, h2, e1, hsk3, h3, e2, hms]
            · simp only [Option.some.injEq, Prod.mk.injEq] at h
              obtain ⟨hms, hr⟩ := h
              subst hr
              refine ⟨by omega, ?_⟩
              intro g hg
              obtain ⟨k, rfl⟩ : ∃ k, g = k + 1 := ⟨g - 1, by omega⟩
              rw [parseMembers_succ, hsk]
              have e1 := hfuel3 k (by omega)
              simp [h1, hs, hsk2, h2, e1, hsk3, h3, h4, hms]

theorem fuelFree_elems (f : Nat) (ih : FuelFree f) (d : Nat) (cs : List Char)
    (vs : List JValue) (r : List Char)
    (h : parseElems (f + 1) d cs = some (vs, r)) :
    r.length < cs.length ∧
    ∀ g, 2 * (cs.length - r.length) ≤ g → parseElems g d cs = some (vs, r) := by
  rw [parseElems_succ] at h
  cases hv : parseValue f d cs with
  | none => simp [hv] at h
  | some q =>
    obtain ⟨v, r1⟩ := q
    obtain ⟨hl1, hfuel1⟩ := ih.1 d cs v r1 hv
    simp only [hv] at h
    split at h
    · cases h
    · rename_i c r2 hsk
      have hlen := skipSpace_eq_cons hsk
      split_ifs at h with h1 h2
      · cases hm : parseElems f d r2 with
        | none => simp [hm] at h
        | some p =>
          obtain ⟨vs', r'⟩ := p
          obtain ⟨hl2, hfuel2⟩ := ih.2.2 d r2 vs' r' hm
          simp only [hm, Option.some.injEq, Prod.mk.injEq] at h
          obtain ⟨hvs, hr⟩ := h
          subst hr
          refine ⟨by omega, ?_⟩
          intro g hg
          obtain ⟨k, rfl⟩ : ∃ k, g = k + 1 := ⟨g - 1, by omega⟩
          rw [parseElems_succ]
          have e1 := hfuel1 k (by omega)
          have e2 := hfuel2 k (by omega)
          simp [e1, hsk, h1, e2, hvs]
      · simp only [Option.some.injEq, Prod.mk.injEq] at h
        obtain ⟨hvs, hr⟩ := h
        subst hr
        refine ⟨by omega, ?_⟩
        intro g hg
        obtain ⟨k, rfl⟩ : ∃ k, g = k + 1 := ⟨g - 1, by omega⟩
        rw [parseElems_succ]
        have e1 := hfuel1 k (by omega)
        simp [e1, hsk, h1, h2, hvs]

theorem fuelFree : ∀ f, FuelFree f := by
  intro f
  induction f with
  | zero =>
    refine ⟨?_, ?_, ?_⟩
    · intro d cs v r h; simp [parseValue] at h
    · intro d cs ms r h; simp [parseMembers] at h
    · intro d cs vs r h; simp [parseElems] at h
  | succ f ih =>
    exact ⟨fuelFree_value f ih, fuelFree_members f ih, fuelFree_elems f ih⟩

/-- The fuel `Decode` gives the scanner never runs out: whenever some amount of
fuel lets the scanner delimit a value at the head of the body, `Decode`
unmarshals that very value. -/
theorem Decode_of_parse (body : String) (book : Book) (f : Nat) (v : JValue) (r : List Char)
    (h : parseValue f 0 body.data = some (v, r)) :
    Decode body book = unmarshalBook v book := by
  have := ((fuelFree f).1 0 body.data v r h).2 (2 * body.data.length + 2) (by omega)
  unfold Decode
  rw [this]

theorem storeMember_not_malformed (acc : Book × Option DecodeError) (m : List Char × JValue)
    (h : acc.2 ≠ some DecodeError.malformed) :
    (storeMember acc m).2 ≠ some DecodeError.malformed := by
  have hs : (match acc.2 with
      | some e => some e
      | none => some DecodeError.wrongType) ≠ some DecodeError.malformed := by
    cases ha : acc.2 with
    | none => simp
    | some e => rw [ha] at h; simpa using h
  unfold storeMember
  simp only
  split_ifs <;> first | exact h | (split <;> first | exact h | exact hs)

theorem unmarshalBook_not_malformed (v : JValue) (book : Book) :
    (unmarshalBook v book).2 ≠ some DecodeError.malformed := by
  have hfold : ∀ (ms : List (List Char × JValue)) (acc : Book × Option DecodeError),
      acc.2 ≠ some DecodeError.malformed →
      (ms.foldl storeMember acc).2 ≠ some DecodeError.malformed := by
    intro ms
    induction ms with
    | nil => intro acc h; exact h
    | cons m ms ih => intro acc h; exact ih _ (storeMember_not_malformed acc m h)
  unfold unmarshalBook
  split
  · exact hfold _ _ (by simp)
  · simp
  · simp

/-- When `Decode` reports a malformed body, no amount of fuel lets the scanner
delimit a value at its head. -/
theorem parse_of_Decode_malformed (body : String) (book book1 : Book)
    (h : Decode body book = (book1, some DecodeError.malformed)) :
    ∀ f, parseValue f 0 body.data = none := by
  intro f
  cases hp : parseValue f 0 body.data with
  | none => rfl
  | some p =>
    obtain ⟨v, r⟩ := p
    have := Decode_of_parse body book f v r hp
    rw [this] at h
    exact absurd (congrArg Prod.snd h) (unmarshalBook_not_malformed v book)

/-! ## The collection under the unique index -/

theorem any_matches_false {books : List Doc} {isbn : String}
    (h : ∀ d ∈ books, d.isbn ≠ isbn) : books.any (matchesISBN isbn) = false := by
  simp only [List.any_eq_false, matchesISBN, decide_eq_true_eq]
  exact h

theorem any_matches_true {books : List Doc} {isbn : String}
    (h : Holds books isbn) : books.any (matchesISBN isbn) = true := by
  obtain ⟨d, hd, e⟩ := h
  simp only [List.any_eq_true, matchesISBN, decide_eq_true_eq]
  exact ⟨d, hd, e⟩

theorem find_matches_none {books : List Doc} {isbn : String}
    (h : ∀ d ∈ books, d.isbn ≠ isbn) : books.find? (matchesISBN isbn) = none := by
  simp only [List.find?_eq_none, matchesISBN, decide_eq_true_eq]
  exact h

theorem find_append_new {books : List Doc} {doc : Doc}
    (h : ∀ d ∈ books, d.isbn ≠ doc.isbn) :
    (books ++ [doc]).find? (matchesISBN doc.isbn) = some doc := by
  rw [List.find?_append, find_matches_none h]
  simp [matchesISBN]

theorem splitFirst_none {books : List Doc} {isbn : String}
    (h : ∀ d ∈ books, d.isbn ≠ isbn) : splitFirst isbn books = none := by
  induction books with
  | nil => rfl
  | cons d ds ih =>
    have h1 : d.isbn ≠ isbn := h d (List.mem_cons_self _ _)
    have h2 := ih (fun x hx => h x (List.mem_cons_of_mem _ hx))
    simp [splitFirst, matchesISBN, h1, h2]

theorem splitFirst_some {books : List Doc} {isbn : String} (h : Holds books isbn) :
    ∃ pre x post, splitFirst isbn books = some (pre, x, post) ∧ books = pre ++ x :: post ∧
      x.isbn = isbn ∧ ∀ d ∈ pre, d.isbn ≠ isbn := by
  induction books with
  | nil => obtain ⟨d, hd, _⟩ := h; cases hd
  | cons d ds ih =>
    by_cases hd : d.isbn = isbn
    · exact ⟨[], d, ds, by simp [splitFirst, matchesISBN, hd], rfl, hd, by simp⟩
    · have h' : Holds ds isbn := by
        obtain ⟨x, hx, e⟩ := h
        rcases List.mem_cons.1 hx with rfl | hx
        · exact absurd e hd
        · exact ⟨x, hx, e⟩
      obtain ⟨pre, x, post, h1, h2, h3, h4⟩ := ih h'
      refine ⟨d :: pre, x, post, by simp [splitFirst, matchesISBN, hd, h1], by simp [h2], h3, ?_⟩
      intro y hy
      rcases List.mem_cons.1 hy with rfl | hy
      · exact hd
      · exact h4 y hy

theorem splitFirst_sound {books pre post : List Doc} {x : Doc} {isbn : String}
    (h : splitFirst isbn books = some (pre, x, post)) :
    books = pre ++ x :: post ∧ x.isbn = isbn ∧ ∀ d ∈ pre, d.isbn ≠ isbn := by
  by_cases hh : Holds books isbn
  · obtain ⟨pre', x', post', h1, h2, h3, h4⟩ := splitFirst_some hh
    rw [h1] at h
    cases h
    exact ⟨h2, h3, h4⟩
  · have : ∀ d ∈ books, d.isbn ≠ isbn := fun d hd e => hh ⟨d, hd, e⟩
    rw [splitFirst_none this] at h
    cases h

theorem unique_others {pre post : List Doc} {x : Doc} (h : UniqueISBN (pre ++ x :: post)) :
    UniqueISBN (pre ++ post) ∧ ∀ d ∈ pre ++ post, d.isbn ≠ x.isbn := by
  unfold UniqueISBN at *
  rw [List.map_append, List.map_cons, List.nodup_middle, List.nodup_cons] at h
  rw [List.map_append]
  refine ⟨h.2, ?_⟩
  intro d hd e
  apply h.1
  rw [← e, ← List.map_append]
  exact List.mem_map_of_mem _ hd

theorem unique_replace {pre post : List Doc} {doc : Doc} (h : UniqueISBN (pre ++ post))
    (hn : ∀ d ∈ pre ++ post, d.isbn ≠ doc.isbn) : UniqueISBN (pre ++ doc :: post) := by
  unfold UniqueISBN at *
  rw [List.map_append, List.map_cons, List.nodup_middle, List.nodup_cons]
  rw [List.map_append] at h
  refine ⟨?_, h⟩
  intro hm
  rw [← List.map_append, List.mem_map] at hm
  obtain ⟨d, hd, e⟩ := hm
  exact hn d hd e

theorem unique_append {books : List Doc} {doc : Doc} (h : UniqueISBN books)
    (hn : ∀ d ∈ books, d.isbn ≠ doc.isbn) : UniqueISBN (books ++ [doc]) := by
  have := @unique_replace books [] doc (by simpa using h) (by simpa using hn)
  exact this

theorem bsonUnmarshal_bsonMarshal (b : Book) : bsonUnmarshal (bsonMarshal b) = b := rfl

/-! ## What the store operations do -/

theorem Insert_new {s : Session} {doc : Doc} (hup : s.down = false)
    (hnew : ∀ d ∈ s.books, d.isbn ≠ doc.isbn) :
    Insert s doc = ({ s with books := s.books ++ [doc] }, none) := by
  simp [Insert, hup, any_matches_false hnew]

theorem Insert_dup {s : Session} {doc : Doc} (hup : s.down = false)
    (hidx : s.uniqueIndex = true) (hold : Holds s.books doc.isbn) :
    Insert s doc = (s, some MgoError.DupKey) := by
  simp [Insert, hup, hidx, any_matches_true hold]

theorem Update_ok {s : Session} {isbn : String} {doc x : Doc} {pre post : List Doc}
    (hup : s.down = false) (hsplit : splitFirst isbn s.books = some (pre, x, post))
    (hfree : ∀ d ∈ pre ++ post, d.isbn ≠ doc.isbn) :
    Update s isbn doc = ({ s with books := pre ++ doc :: post }, none) := by
  simp [Update, hup, hsplit, any_matches_false hfree]

theorem Remove_ok {s : Session} {isbn : String} {x : Doc} {pre post : List Doc}
    (hup : s.down = false) (hsplit : splitFirst isbn s.books = some (pre, x, post)) :
    Remove s isbn = ({ s with books := pre ++ post }, none) := by
  simp [Remove, hup, hsplit]

theorem Remove_missing {s : Session} {isbn : String}
    (hup : s.down = false) (hnone : ∀ d ∈ s.books, d.isbn ≠ isbn) :
    Remove s isbn = (s, some MgoError.ErrNotFound) := by
  simp [Remove, hup, splitFirst_none hnone]

theorem filter_others {l : List Doc} {isbn : String} (h : ∀ d ∈ l, d.isbn ≠ isbn) :
    l.filter (fun d => !matchesISBN isbn d) = l := by
  rw [List.filter_eq_self]
  intro d hd
  simp [matchesISBN, h d hd]

/-! ## What the handlers answer -/

/-- With the store up and no document matching the identifier, `bookByISBN`
takes the error branch of `One`: status 500, message "Database error". -/
theorem bookByISBN_missing (tbl : Nat → Bool) (s : Session) (r : Request)
    (hup : s.down = false) (hnone : ∀ d ∈ s.books, d.isbn ≠ r.isbn) :
    (bookByISBN tbl s ResponseWriter.fresh r).2.status = 500 ∧
    (bookByISBN tbl s ResponseWriter.fresh r).2.body = "\x7bmessage:\"Database error\"\x7d" := by
  simp only [bookByISBN, FindOne, hup, find_matches_none hnone]
  exact ⟨rfl, rfl⟩

/-- With the store up and `d` the first document matching the identifier, its
`isbn` not empty, `bookByISBN` answers 200 with the indented encoding of `d`. -/
theorem bookByISBN_found (tbl : Nat → Bool) (s : Session) (r : Request) (d : Doc)
    (hup : s.down = false) (hfind : s.books.find? (matchesISBN r.isbn) = some d)
    (hne : d.isbn ≠ "") :
    (bookByISBN tbl s ResponseWriter.fresh r).2.status = 200 ∧
    (bookByISBN tbl s ResponseWriter.fresh r).2.body = MarshalIndentBook (bsonUnmarshal d) := by
  have : (bsonUnmarshal d).ISBN ≠ "" := hne
  simp only [bookByISBN, FindOne, hup, hfind]
  simp [this, ResponseWithJSON, ResponseWriter.fresh, ResponseWriter.WriteHeader,
    ResponseWriter.SetHeader, ResponseWriter.Write, bodyAllowedForStatus]

/-- A create request whose body decodes without error to a book with a fresh
`isbn`, store up: the document is appended and the response is the bare 201. -/
theorem addBook_fresh (tbl : Nat → Bool) (s : Session) (r : Request) (b : Book)
    (hbody : Decode r.Body Book.zero = (b, none)) (hup : s.down = false)
    (hnew : ∀ d ∈ s.books, d.isbn ≠ b.ISBN) :
    addBook tbl s ResponseWriter.fresh r =
      ({ s with books := s.books ++ [bsonMarshal b] },
        ((ResponseWriter.fresh.SetHeader "Content-Type" "application/json").SetHeader
          "Location" (r.Path ++ "/" ++ b.ISBN)).WriteHeader 201) := by
  have hI := @Insert_new s (bsonMarshal b) hup hnew
  simp only [addBook, hbody, hI]

/-- Once the status line is written, `ErrorWithJSON` cannot change the status
any more; it only appends its text to the body. -/
theorem ErrorWithJSON_after (tbl : Nat → Bool) (w : ResponseWriter) (message : String)
    (code : Nat) (hw : w.wroteHeader = true) (hb : bodyAllowedForStatus w.status = true) :
    (ErrorWithJSON tbl w message code).status = w.status ∧
    (ErrorWithJSON tbl w message code).sent = w.sent ∧
    (ErrorWithJSON tbl w message code).body =
      w.body ++ ("\x7bmessage:" ++ Quote tbl message ++ "\x7d") := by
  simp [ErrorWithJSON, ResponseWriter.WriteHeader, ResponseWriter.SetHeader,
    ResponseWriter.Write, hw, hb]

/-- An input of the scanner that opens an object and goes on with something
that is neither a key nor the closing brace is not a JSON value. -/
theorem parseValue_not_object (fuel : Nat) (c : Char) (cs : List Char)
    (h1 : isSpace c = false) (h2 : c ≠ '"') (h3 : c ≠ '\x7d') :
    parseValue fuel 0 ('\x7b' :: c :: cs) = none := by
  cases fuel with
  | zero => simp [parseValue]
  | succ f =>
    rw [parseValue_succ, skipSpace_cons _ _ (by decide)]
    have hdep : ¬ 0 + 1 > maxNestingDepth := by decide
    simp only [hdep, skipSpace_cons _ _ h1, h3]
    cases f with
    | zero => simp [parseMembers]
    | succ g =>
      rw [parseMembers_succ, skipSpace_cons _ _ h1]
      simp [h2]

/-- Whatever the message and the code, the body `ErrorWithJSON` writes on a
fresh writer is not valid JSON: the member name is not quoted. -/
theorem ErrorWithJSON_never_json (tbl : Nat → Bool) (message : String) (code : Nat) :
    Valid (ErrorWithJSON tbl ResponseWriter.fresh message code).body = false := by
  unfold Valid
  by_cases hc : bodyAllowedForStatus code = true
  · have hb : (ErrorWithJSON tbl ResponseWriter.fresh message code).body.data =
        '\x7b' :: 'm' :: ("essage:".data ++ (Quote tbl message).data ++ ['\x7d']) := by
      simp [ErrorWithJSON, ResponseWriter.fresh, ResponseWriter.WriteHeader,
        ResponseWriter.SetHeader, ResponseWriter.Write, hc]
    rw [hb, parseValue_not_object _ 'm' _ (by decide) (by decide) (by decide)]
  · have hb : (ErrorWithJSON tbl ResponseWriter.fresh message code).body.data = [] := by
      simp [ErrorWithJSON, ResponseWriter.fresh, ResponseWriter.WriteHeader,
        ResponseWriter.SetHeader, ResponseWriter.Write, hc]
    rw [hb]
    rfl

/-! ## The unique index as an invariant -/

theorem Insert_indexed (s : Session) (doc : Doc) (h : Indexed s) : Indexed (Insert s doc).1 := by
  unfold Insert
  split_ifs with h1 h2
  · exact h
  · exact h
  · refine ⟨h.1, unique_append h.2 ?_⟩
    intro d hd e
    apply h2
    exact ⟨h.1, any_matches_true ⟨d, hd, e⟩⟩

theorem Update_indexed (s : Session) (isbn : String) (doc : Doc) (h : Indexed s) :
    Indexed (Update s isbn doc).1 := by
  unfold Update
  split_ifs with h1
  · exact h
  · cases hsp : splitFirst isbn s.books with
    | none => exact h
    | some t =>
      obtain ⟨pre, x, post⟩ := t
      simp only
      have hb := (splitFirst_sound hsp).1
      have hu := h.2
      rw [hb] at hu
      split_ifs with h2
      · exact h
      · refine ⟨h.1, unique_replace (unique_others hu).1 ?_⟩
        intro d hd e
        apply h2
        exact ⟨h.1, any_matches_true ⟨d, hd, e⟩⟩

theorem Remove_indexed (s : Session) (isbn : String) (h : Indexed s) :
    Indexed (Remove s isbn).1 := by
  unfold Remove
  split_ifs with h1
  · exact h
  · cases hsp : splitFirst isbn s.books with
    | none => exact h
    | some t =>
      obtain ⟨pre, x, post⟩ := t
      have hb := (splitFirst_sound hsp).1
      have hu := h.2
      rw [hb] at hu
      exact ⟨h.1, (unique_others hu).1⟩

theorem handler_indexed (tbl : Nat → Bool) (route : Route) (s : Session) (w : ResponseWriter)
    (r : Request) (h : Indexed s) : Indexed (handler tbl route s w r).1 := by
  cases route with
  | list =>
    simp only [handler, allBooks]
    split <;> exact h
  | create =>
    simp only [handler, addBook]
    have hI := Insert_indexed s (bsonMarshal (Decode r.Body Book.zero).1) h
    split
    · rename_i s1 e hins
      rw [hins] at hI
      split <;> exact hI
    · rename_i s1 hins
      rw [hins] at hI
      exact hI
  | get =>
    simp only [handler, bookByISBN]
    split
    · exact h
    · split <;> exact h
  | update =>
    simp only [handler, updateBook]
    split
    · exact h
    · rename_i book hdec
      have hU := Update_indexed s r.isbn (bsonMarshal book) h
      split <;> rename_i hupd <;> rw [hupd] at hU <;> exact hU
  | delete =>
    simp only [handler, deleteBook]
    have hR := Remove_indexed s r.isbn h
    split <;> rename_i hrem <;> rw [hrem] at hR <;> exact hR

theorem serve_indexed (tbl : Nat → Bool) (s : Session) (c : Call) (h : Indexed s) :
    Indexed (serve tbl s c) :=
  handler_indexed tbl c.route { s with down := c.storeDown } ResponseWriter.fresh c.request h

theorem serveAll_indexed (tbl : Nat → Bool) (cs : List Call) :
    ∀ s : Session, Indexed s → Indexed (serveAll tbl s cs) := by
  induction cs with
  | nil => intro s h; exact h
  | cons c cs ih => intro s h; exact ih (serve tbl s c) (serve_indexed tbl s c h)


/-! ## What the router binds -/

theorem cutLiteral_append (lit rest : List Char) : cutLiteral lit (lit ++ rest) = some rest := by
  induction lit with
  | nil => cases rest <;> rfl
  | cons l lit ih => simp [cutLiteral, ih]

theorem span_segment (seg : List Char) (h : '/' ∉ seg) :
    seg.span (fun c => c != '/') = (seg, []) := by
  have : ∀ a ∈ seg, ¬ a = '/' := fun a ha e => h (e ▸ ha)
  simpa using this

/-- A pattern that ends in a binding matches the literal followed by one
segment that is not empty, and binds what the segment stands for. -/
theorem Match_binding (methods : List String) (literal method : String) (seg : List Char)
    (isbn : String) (hm : methods.contains method = true) (hne : seg ≠ []) (hs : '/' ∉ seg)
    (hu : unescape seg = some isbn) :
    Pattern.Match ⟨methods, literal, true⟩ method (literal ++ String.mk seg) = some isbn := by
  unfold Pattern.Match
  simp only [hm, if_true, String.data_append, cutLiteral_append, span_segment seg hs]
  cases seg with
  | nil => exact absurd rfl hne
  | cons c cs => simpa using hu

/-- The mux sends GET `/books/<segment>` to `bookByISBN`. -/
theorem route_get (seg : List Char) (isbn : String) (hne : seg ≠ []) (hs : '/' ∉ seg)
    (hu : unescape seg = some isbn) :
    route "GET" ("/books/" ++ String.mk seg) routes = some (Route.get, isbn) := by
  have h1 : Pattern.Match (pat.Get "/books" false) "GET" ("/books/" ++ String.mk seg) = none := by
    have hneq : ("/books/" ++ String.mk seg) ≠ "/books" := by
      intro e
      have e1 : ("/books/" ++ String.mk seg).data.length = "/books".data.length := by rw [e]
      rw [String.data_append, List.length_append] at e1
      have h6 : "/books".data.length = 6 := by decide
      have h7 : "/books/".data.length = 7 := by decide
      omega
    simp [Pattern.Match, pat.Get, hneq]
  have h2 : Pattern.Match (pat.Post "/books" false) "GET" ("/books/" ++ String.mk seg) = none := by
    have : (["POST"] : List String).contains "GET" = false := by decide
    simp [Pattern.Match, pat.Post, this]
  have h3 : Pattern.Match (pat.Get "/books/" true) "GET" ("/books/" ++ String.mk seg)
      = some isbn :=
    Match_binding ["GET", "HEAD"] "/books/" "GET" seg isbn (by decide) hne hs hu
  simp only [routes, route, h1, h2, h3]

theorem unescape_nil : unescape [] = some "" := by decide

/-- A GET request for `/books/<segment>`, the segment standing for an
identifier that is not empty, is served by `bookByISBN` with that identifier. -/
theorem ServeHTTP_get (tbl : Nat → Bool) (s : Session) (req : HttpRequest) (seg isbn : String)
    (hm : req.Method = "GET") (hp : req.EscapedPath = "/books/" ++ seg)
    (hne : isbn ≠ "") (hs : '/' ∉ seg.data) (hu : unescape seg.data = some isbn) :
    ServeHTTP tbl s req =
      ((bookByISBN tbl s ResponseWriter.fresh ⟨req.Path, req.Body, isbn⟩).1,
       (bookByISBN tbl s ResponseWriter.fresh ⟨req.Path, req.Body, isbn⟩).2.finish) := by
  have hseg : seg.data ≠ [] := by
    intro e
    rw [e, unescape_nil] at hu
    exact hne (Option.some.inj hu).symm
  have hr := route_get seg.data isbn hseg hs hu
  unfold ServeHTTP
  rw [hm, hp]
  have : ("/books/" ++ String.mk seg.data) = "/books/" ++ seg := rfl
  rw [this] at hr
  rw [hr]
  have hh : ("GET" : String) ≠ "HEAD" := by decide
  simp only [handler, hh, if_false]

/-- A POST request for `/books` is served by `addBook`. -/
theorem ServeHTTP_post (tbl : Nat → Bool) (s : Session) (req : HttpRequest)
    (hm : req.Method = "POST") (hp : req.EscapedPath = "/books") :
    ServeHTTP tbl s req =
      ((addBook tbl s ResponseWriter.fresh ⟨req.Path, req.Body, ""⟩).1,
       (addBook tbl s ResponseWriter.fresh ⟨req.Path, req.Body, ""⟩).2.finish) := by
  have hr : route "POST" "/books" routes = some (Route.create, "") := by decide
  unfold ServeHTTP
  rw [hm, hp, hr]
  have hh : ("POST" : String) ≠ "HEAD" := by decide
  simp only [handler, hh, if_false]

/-- In the setting of `bookByISBN_found` the status line is written. -/
theorem bookByISBN_found_wrote (tbl : Nat → Bool) (s : Session) (r : Request) (d : Doc)
    (hup : s.down = false) (hfind : s.books.find? (matchesISBN r.isbn) = some d)
    (hne : d.isbn ≠ "") :
    (bookByISBN tbl s ResponseWriter.fresh r).2.wroteHeader = true := by
  have : (bsonUnmarshal d).ISBN ≠ "" := hne
  simp only [bookByISBN, FindOne, hup, hfind]
  simp [this, ResponseWithJSON, ResponseWriter.fresh, ResponseWriter.WriteHeader,
    ResponseWriter.SetHeader, ResponseWriter.Write, bodyAllowedForStatus]

theorem utf8Decode_nonempty : ∀ (bytes : List Nat) (k acc lo : Nat) (cs : List Char),
    (k ≠ 0 ∨ bytes ≠ []) → utf8Decode k acc lo bytes = some cs → cs ≠ [] := by
  intro bytes
  induction bytes with
  | nil =>
    intro k acc lo cs h hd
    cases k with
    | zero => simp at h
    | succ k => simp [utf8Decode] at hd
  | cons b rest ih =>
    intro k acc lo cs _ hd
    cases k with
    | zero =>
      unfold utf8Decode at hd
      split_ifs at hd
      · cases hr : utf8Decode 0 0 0 rest with
        | none => simp [hr] at hd
        | some x => simp [hr] at hd; subst hd; simp
      · exact ih 1 _ _ cs (Or.inl (by decide)) hd
      · exact ih 2 _ _ cs (Or.inl (by decide)) hd
      · exact ih 3 _ _ cs (Or.inl (by decide)) hd
    | succ k =>
      unfold utf8Decode at hd
      split_ifs at hd with h1 h2 h3
      · cases hr : utf8Decode 0 0 0 rest with
        | none => simp [hr] at hd
        | some x => simp [hr] at hd; subst hd; simp
      · exact ih k _ _ cs (Or.inl h2) hd

theorem utf8Encode_nonempty (c : Char) : utf8Encode c ≠ [] := by
  unfold utf8Encode
  simp only
  split_ifs <;> simp

theorem unescapeBytes_nonempty (c : Char) (cs : List Char) (bytes : List Nat)
    (h : unescapeBytes (c :: cs) = some bytes) : bytes ≠ [] := by
  unfold unescapeBytes at h
  split_ifs at h
  · split at h
    · split at h
      · cases hr : unescapeBytes ‹List Char› with
        | none => simp [hr] at h
        | some x => simp [hr] at h; subst h; simp
      · exact absurd h (by simp)
    · exact absurd h (by simp)
  · cases hr : unescapeBytes cs with
    | none => simp [hr] at h
    | some x =>
      simp [hr] at h; subst h
      simp [utf8Encode_nonempty]

/-- A segment that is not empty does not stand for the empty string. -/
theorem unescape_nonempty (seg : List Char) (isbn : String) (hne : seg ≠ [])
    (h : unescape seg = some isbn) : isbn ≠ "" := by
  cases seg with
  | nil => exact absurd rfl hne
  | cons c cs =>
    unfold unescape at h
    cases hb : unescapeBytes (c :: cs) with
    | none => simp [hb] at h
    | some bytes =>
      simp only [hb] at h
      cases hd : utf8Decode 0 0 0 bytes with
      | none => simp [hd] at h
      | some chars =>
        simp [hd] at h
        have := utf8Decode_nonempty bytes 0 0 0 chars
          (Or.inr (unescapeBytes_nonempty c cs bytes hb)) hd
        intro e
        rw [e] at h
        exact this (by simpa using congrArg String.data h)

/-- No request is bound to the empty identifier: whatever a pattern that ends
in a binding matches, the value it binds is not the empty string. -/
theorem Match_binding_nonempty (methods : List String) (literal method path isbn : String)
    (h : Pattern.Match ⟨methods, literal, true⟩ method path = some isbn) : isbn ≠ "" := by
  unfold Pattern.Match at h
  simp only at h
  split_ifs at h
  split at h
  · exact absurd h (by simp)
  · split at h
    · exact absurd h (by simp)
    · rename_i x1 x2 x3 x4
      exact unescape_nonempty x2 isbn (fun e => x3 e) h
    · exact absurd h (by simp)

theorem unescapeBytes_escapeByte (b : Nat) (hb : b < 256) (rest : List Char) :
    unescapeBytes (escapeByte b ++ rest) = (unescapeBytes rest).map (fun bs => b :: bs) := by
  have h1 : hexVal (lowerhex (b / 16)) = some (b / 16) := hexVal_lowerhex _ (by omega)
  have h2 : hexVal (lowerhex (b % 16)) = some (b % 16) := hexVal_lowerhex _ (by omega)
  have h3 : 16 * (b / 16) + b % 16 = b := by omega
  conv => lhs; unfold unescapeBytes
  simp [escapeByte, h1, h2, h3]

theorem unescapeBytes_escape (bs : List Nat) (h : ∀ b ∈ bs, b < 256) :
    unescapeBytes (bs.flatMap escapeByte) = some bs := by
  induction bs with
  | nil => rfl
  | cons b bs ih =>
    rw [List.flatMap_cons, unescapeBytes_escapeByte b (h b (List.mem_cons_self _ _)),
      ih (fun x hx => h x (List.mem_cons_of_mem _ hx))]
    rfl

theorem char_bounds (c : Char) :
    c.toNat < 0x110000 ∧ ¬ (0xD800 ≤ c.toNat ∧ c.toNat < 0xE000) := by
  rcases c.valid with h | h
  · have : c.toNat < 0xD800 := h
    omega
  · have h1 : 0xDFFF < c.toNat := h.1
    have h2 : c.toNat < 0x110000 := h.2
    omega

theorem utf8Encode_lt (c : Char) : ∀ b ∈ utf8Encode c, b < 256 := by
  have hn := (char_bounds c).1
  intro b hb
  unfold utf8Encode at hb
  simp only at hb
  split_ifs at hb <;> simp at hb <;> omega

/-- Decoding the bytes of a rune gives the rune back. -/
theorem utf8Decode_encode (c : Char) (rest : List Nat) :
    utf8Decode 0 0 0 (utf8Encode c ++ rest) =
      (utf8Decode 0 0 0 rest).map (fun cs => c :: cs) := by
  obtain ⟨hlt, hsur⟩ := char_bounds c
  have hc : ∀ n, n = c.toNat → Char.ofNat n = c := fun n e => by rw [e]; exact Char.ofNat_toNat c
  unfold utf8Encode
  simp only
  split_ifs with h1 h2 h3
  · simp only [List.singleton_append]
    conv => lhs; unfold utf8Decode
    simp only [h1, if_true, hc _ rfl]
  · simp only [List.cons_append, List.nil_append]
    have e : (192 + c.toNat / 64) % 32 * 64 + (128 + c.toNat % 64) % 64 = c.toNat := by omega
    conv => lhs; unfold utf8Decode
    have a1 : ¬ (192 + c.toNat / 64 < 128) := by omega
    have a2 : 192 ≤ 192 + c.toNat / 64 ∧ 192 + c.toNat / 64 < 224 := by omega
    simp only [a1, a2, if_false, if_true, and_self]
    conv => lhs; unfold utf8Decode
    have a3 : 128 ≤ 128 + c.toNat % 64 ∧ 128 + c.toNat % 64 < 192 := by omega
    have a4 : 128 ≤ c.toNat ∧ c.toNat < 1114112 ∧ ¬ (55296 ≤ c.toNat ∧ c.toNat < 57344) := by
      omega
    simp only [a3, and_self, if_true, e, a4, hc _ rfl, and_self, not_false_eq_true, if_true]
  · simp only [List.cons_append, List.nil_append]
    have e1 : (224 + c.toNat / 4096) % 16 * 64 + (128 + c.toNat / 64 % 64) % 64
        = c.toNat / 64 := by omega
    have e2 : c.toNat / 64 * 64 + (128 + c.toNat % 64) % 64 = c.toNat := by omega
    conv => lhs; unfold utf8Decode
    have a1 : ¬ (224 + c.toNat / 4096 < 128) := by omega
    have a2 : ¬ (192 ≤ 224 + c.toNat / 4096 ∧ 224 + c.toNat / 4096 < 224) := by omega
    have a3 : 224 ≤ 224 + c.toNat / 4096 ∧ 224 + c.toNat / 4096 < 240 := by omega
    simp only [a1, a2, a3, if_false, if_true, and_self]
    conv => lhs; unfold utf8Decode
    have a4 : 128 ≤ 128 + c.toNat / 64 % 64 ∧ 128 + c.toNat / 64 % 64 < 192 := by omega
    have a5 : ¬ ((1 : Nat) = 0) := by decide
    simp only [a4, and_self, if_true, a5, if_false, e1]
    conv => lhs; unfold utf8Decode
    have a6 : 128 ≤ 128 + c.toNat % 64 ∧ 128 + c.toNat % 64 < 192 := by omega
    have a7 : 2048 ≤ c.toNat ∧ c.toNat < 1114112 ∧ ¬ (55296 ≤ c.toNat ∧ c.toNat < 57344) := by
      omega
    simp only [a6, and_self, if_true, e2, a7, hc _ rfl, and_self, not_false_eq_true, if_true]
  · simp only [List.cons_append, List.nil_append]
    have e1 : (240 + c.toNat / 262144) % 8 * 64 + (128 + c.toNat / 4096 % 64) % 64
        = c.toNat / 4096 := by omega
    have e2 : c.toNat / 4096 * 64 + (128 + c.toNat / 64 % 64) % 64 = c.toNat / 64 := by omega
    have e3 : c.toNat / 64 * 64 + (128 + c.toNat % 64) % 64 = c.toNat := by omega
    conv => lhs; unfold utf8Decode
    have a1 : ¬ (240 + c.toNat / 262144 < 128) := by omega
    have a2 : ¬ (192 ≤ 240 + c.toNat / 262144 ∧ 240 + c.toNat / 262144 < 224) := by omega
    have a3 : ¬ (224 ≤ 240 + c.toNat / 262144 ∧ 240 + c.toNat / 262144 < 240) := by omega
    have a3b : 240 ≤ 240 + c.toNat / 262144 ∧ 240 + c.toNat / 262144 < 248 := by omega
    simp only [a1, a2, a3, a3b, if_false, if_true, and_self]
    conv => lhs; unfold utf8Decode
    have a4 : 128 ≤ 128 + c.toNat / 4096 % 64 ∧ 128 + c.toNat / 4096 % 64 < 192 := by omega
    have a5 : ¬ ((2 : Nat) = 0) := by decide
    simp only [a4, and_self, if_true, a5, if_false, e1]
    conv => lhs; unfold utf8Decode
    have a6 : 128 ≤ 128 + c.toNat / 64 % 64 ∧ 128 + c.toNat / 64 % 64 < 192 := by omega
    have a7 : ¬ ((1 : Nat) = 0) := by decide
    simp only [a6, and_self, if_true, a7, if_false, e2]
    conv => lhs; unfold utf8Decode
    have a8 : 128 ≤ 128 + c.toNat % 64 ∧ 128 + c.toNat % 64 < 192 := by omega
    have a9 : 65536 ≤ c.toNat ∧ c.toNat < 1114112 ∧ ¬ (55296 ≤ c.toNat ∧ c.toNat < 57344) := by
      omega
    simp only [a8, and_self, if_true, e3, a9, hc _ rfl, and_self, not_false_eq_true, if_true]

theorem utf8Decode_flatMap (cs : List Char) :
    utf8Decode 0 0 0 (cs.flatMap utf8Encode) = some cs := by
  induction cs with
  | nil => rfl
  | cons c cs ih => rw [List.flatMap_cons, utf8Decode_encode, ih]; rfl

theorem lowerhex_ne_slash (k : Nat) (h : k < 16) : lowerhex k ≠ '/' := by
  interval_cases k <;> decide

/-- The encoding that escapes every byte is one path segment. -/
theorem escapeAll_no_slash (s : String) : '/' ∉ (escapeAll s).data := by
  unfold escapeAll
  simp only [List.mem_flatMap, not_exists, not_and]
  intro b hbm hm
  have hb : b < 256 := by
    obtain ⟨c, _, hc⟩ := hbm
    exact utf8Encode_lt c b hc
  simp only [escapeByte, List.mem_cons, List.mem_singleton, List.not_mem_nil, or_false] at hm
  rcases hm with h | h | h
  · exact absurd h (by decide)
  · exact lowerhex_ne_slash _ (by omega) h.symm
  · exact lowerhex_ne_slash _ (by omega) h.symm

/-- Every identifier has a segment that stands for it. -/
theorem unescape_escapeAll (s : String) : unescape (escapeAll s).data = some s := by
  unfold unescape escapeAll
  have hb : ∀ b ∈ s.data.flatMap utf8Encode, b < 256 := by
    intro b hb
    obtain ⟨c, _, hc⟩ := List.mem_flatMap.mp hb
    exact utf8Encode_lt c b hc
  simp only [unescapeBytes_escape _ hb, utf8Decode_flatMap, Option.map_some']

/-! ## The claims -/

/-- C1, as amended: for every book `b` whose `isbn` is not empty and every
store (up, holding no record with that `isbn`), the mux answers a create
request (POST `/books`) whose body is the JSON encoding of `b` with 201, and
answers a get-by-ISBN request for `b.ISBN` that follows (GET `/books/<segment>`,
the segment being any percent-encoding of `b.ISBN`) with 200 and a body that
decodes, without error, to a record equal to `b` in all four fields.
By `unescape_escapeAll` every `isbn` has such a segment. -/
theorem create_then_get (tbl : Nat → Bool) (s : Session) (b : Book) (post get : HttpRequest)
    (seg : String)
    (hne : b.ISBN ≠ "") (hup : s.down = false) (hnew : ∀ d ∈ s.books, d.isbn ≠ b.ISBN)
    (hpm : post.Method = "POST") (hpp : post.EscapedPath = "/books")
    (hpb : post.Body = MarshalIndentBook b)
    (hgm : get.Method = "GET") (hgp : get.EscapedPath = "/books/" ++ seg)
    (hseg : '/' ∉ seg.data) (hun : unescape seg.data = some b.ISBN) :
    (ServeHTTP tbl s post).2.status = 201 ∧
    (ServeHTTP tbl (ServeHTTP tbl s post).1 get).2.status = 200 ∧
    Decode (ServeHTTP tbl (ServeHTTP tbl s post).1 get).2.body Book.zero = (b, none) := by
  have hadd := addBook_fresh tbl s ⟨post.Path, post.Body, ""⟩ b
    (by rw [hpb]; exact Decode_MarshalIndentBook b) hup hnew
  rw [ServeHTTP_post tbl s post hpm hpp, hadd]
  rw [ServeHTTP_get tbl _ get seg b.ISBN hgm hgp hne hseg hun]
  have hf := bookByISBN_found tbl { s with books := s.books ++ [bsonMarshal b] }
    ⟨get.Path, get.Body, b.ISBN⟩ (bsonMarshal b) hup (@find_append_new s.books (bsonMarshal b) hnew)
    hne
  have hw := bookByISBN_found_wrote tbl { s with books := s.books ++ [bsonMarshal b] }
    ⟨get.Path, get.Body, b.ISBN⟩ (bsonMarshal b) hup (@find_append_new s.books (bsonMarshal b) hnew)
    hne
  simp only [ResponseWriter.finish, hw, if_true]
  refine ⟨rfl, hf.1, ?_⟩
  rw [hf.2]
  exact Decode_MarshalIndentBook b

/-- C1, witness of the amended claim: the book 111 created in a store that holds
book 222, then read back. -/
theorem create_then_get_witness :
    (ServeHTTP (fun _ => true) ⟨[⟨"222", "B", "Y", "$2"⟩], true, false⟩
      ⟨"POST", "/books", "/books", MarshalIndentBook ⟨"111", "A", "X", "$1"⟩⟩).2.status = 201 ∧
    (ServeHTTP (fun _ => true)
      (ServeHTTP (fun _ => true) ⟨[⟨"222", "B", "Y", "$2"⟩], true, false⟩
        ⟨"POST", "/books", "/books", MarshalIndentBook ⟨"111", "A", "X", "$1"⟩⟩).1
      ⟨"GET", "/books/111", "/books/111", ""⟩).2.status = 200 ∧
    Decode (ServeHTTP (fun _ => true)
      (ServeHTTP (fun _ => true) ⟨[⟨"222", "B", "Y", "$2"⟩], true, false⟩
        ⟨"POST", "/books", "/books", MarshalIndentBook ⟨"111", "A", "X", "$1"⟩⟩).1
      ⟨"GET", "/books/111", "/books/111", ""⟩).2.body Book.zero =
      (⟨"111", "A", "X", "$1"⟩, none) :=
  create_then_get (fun _ => true) ⟨[⟨"222", "B", "Y", "$2"⟩], true, false⟩
    ⟨"111", "A", "X", "$1"⟩
    ⟨"POST", "/books", "/books", MarshalIndentBook ⟨"111", "A", "X", "$1"⟩⟩
    ⟨"GET", "/books/111", "/books/111", ""⟩ "111"
    (by decide) rfl (by decide) rfl rfl rfl rfl (by decide) (by decide) (by decide)

/-- C1, counterexample to the claim as stated: the book with the empty `isbn`
is created in the empty store (POST `/books` is answered 201 and the record is
stored), and the get-by-ISBN request for the empty identifier that follows,
GET `/books/`, matches no route (a binding does not take an empty segment):
the mux answers it 404 "404 page not found", not 200. -/
theorem create_then_get_empty_isbn :
    (∀ d ∈ ([] : List Doc), d.isbn ≠ "") ∧
    '/' ∉ "".data ∧ unescape "".data = some "" ∧
    (ServeHTTP (fun _ => true) ⟨[], true, false⟩
      ⟨"POST", "/books", "/books", MarshalIndentBook ⟨"", "A", "X", "$1"⟩⟩).2.status = 201 ∧
    (ServeHTTP (fun _ => true) ⟨[], true, false⟩
      ⟨"POST", "/books", "/books", MarshalIndentBook ⟨"", "A", "X", "$1"⟩⟩).1.books =
      [⟨"", "A", "X", "$1"⟩] ∧
    (ServeHTTP (fun _ => true)
      (ServeHTTP (fun _ => true) ⟨[], true, false⟩
        ⟨"POST", "/books", "/books", MarshalIndentBook ⟨"", "A", "X", "$1"⟩⟩).1
      ⟨"GET", "/books/", "/books/" ++ "", ""⟩).2.status = 404 ∧
    (ServeHTTP (fun _ => true)
      (ServeHTTP (fun _ => true) ⟨[], true, false⟩
        ⟨"POST", "/books", "/books", MarshalIndentBook ⟨"", "A", "X", "$1"⟩⟩).1
      ⟨"GET", "/books/", "/books/" ++ "", ""⟩).2.body = "404 page not found\n" ∧
    ¬ (ServeHTTP (fun _ => true)
      (ServeHTTP (fun _ => true) ⟨[], true, false⟩
        ⟨"POST", "/books", "/books", MarshalIndentBook ⟨"", "A", "X", "$1"⟩⟩).1
      ⟨"GET", "/books/", "/books/" ++ "", ""⟩).2.status = 200 := by
  decide

/-- C2: a create request whose body decodes without error to a book `b` whose
`isbn` matches no stored record, the store being up, is answered with status
201, the `Location` header `<request path>/<isbn>` and an empty body, and the
collection afterwards is the old one followed by the record of `b`. -/
theorem addBook_created (tbl : Nat → Bool) (s : Session) (r : Request) (b : Book)
    (hbody : Decode r.Body Book.zero = (b, none)) (hup : s.down = false)
    (hnew : ∀ d ∈ s.books, d.isbn ≠ b.ISBN) :
    (addBook tbl s ResponseWriter.fresh r).2.wroteHeader = true ∧
    (addBook tbl s ResponseWriter.fresh r).2.status = 201 ∧
    headerGet (addBook tbl s ResponseWriter.fresh r).2.sent "Location" =
      some (r.Path ++ "/" ++ b.ISBN) ∧
    (addBook tbl s ResponseWriter.fresh r).2.body = "" ∧
    (addBook tbl s ResponseWriter.fresh r).1.books = s.books ++ [bsonMarshal b] ∧
    bsonMarshal b ∈ (addBook tbl s ResponseWriter.fresh r).1.books := by
  rw [addBook_fresh tbl s r b hbody hup hnew]
  refine ⟨rfl, rfl, ?_, rfl, rfl, ?_⟩
  · simp [ResponseWriter.fresh, ResponseWriter.WriteHeader, ResponseWriter.SetHeader,
      headerGet, headerSet]
  · simp

/-- C2, witness: the spec's example body, posted to `/books` while the store
holds book 222. -/
theorem addBook_created_witness :
    (addBook (fun _ => true) ⟨[⟨"222", "B", "Y", "$2"⟩], true, false⟩ ResponseWriter.fresh
      ⟨"/books", "\x7b\"isbn\":\"111\",\"title\":\"A\",\"authors\":\"X\",\"price\":\"$1\"\x7d",
        ""⟩).2.status = 201 ∧
    headerGet (addBook (fun _ => true) ⟨[⟨"222", "B", "Y", "$2"⟩], true, false⟩
      ResponseWriter.fresh
      ⟨"/books", "\x7b\"isbn\":\"111\",\"title\":\"A\",\"authors\":\"X\",\"price\":\"$1\"\x7d",
        ""⟩).2.sent "Location" = some "/books/111" ∧
    (addBook (fun _ => true) ⟨[⟨"222", "B", "Y", "$2"⟩], true, false⟩ ResponseWriter.fresh
      ⟨"/books", "\x7b\"isbn\":\"111\",\"title\":\"A\",\"authors\":\"X\",\"price\":\"$1\"\x7d",
        ""⟩).2.body = "" ∧
    (addBook (fun _ => true) ⟨[⟨"222", "B", "Y", "$2"⟩], true, false⟩ ResponseWriter.fresh
      ⟨"/books", "\x7b\"isbn\":\"111\",\"title\":\"A\",\"authors\":\"X\",\"price\":\"$1\"\x7d",
        ""⟩).1.books = [⟨"222", "B", "Y", "$2"⟩, ⟨"111", "A", "X", "$1"⟩] :=
  have h := addBook_created (fun _ => true) ⟨[⟨"222", "B", "Y", "$2"⟩], true, false⟩
    ⟨"/books", "\x7b\"isbn\":\"111\",\"title\":\"A\",\"authors\":\"X\",\"price\":\"$1\"\x7d", ""⟩
    ⟨"111", "A", "X", "$1"⟩ (by decide) rfl (by decide)
  ⟨h.2.1, h.2.2.1, h.2.2.2.1, h.2.2.2.2.1⟩

/-- C3: with the unique index in place and the store up, a create request
whose body decodes without error to a book whose `isbn` a stored record already
has is answered with status 400 and the message "Book with ISBN already
exists", and the store is left exactly as it was. -/
theorem addBook_duplicate (tbl : Nat → Bool) (s : Session) (r : Request) (b : Book)
    (hbody : Decode r.Body Book.zero = (b, none)) (hup : s.down = false)
    (hidx : s.uniqueIndex = true) (hold : Holds s.books b.ISBN) :
    (addBook tbl s ResponseWriter.fresh r).2.status = 400 ∧
    (addBook tbl s ResponseWriter.fresh r).2.body =
      "\x7bmessage:\"Book with ISBN already exists\"\x7d" ∧
    (addBook tbl s ResponseWriter.fresh r).1 = s := by
  have hI := @Insert_dup s (bsonMarshal b) hup hidx hold
  simp only [addBook, hbody, hI]
  exact ⟨rfl, rfl, rfl⟩

/-- C3, witness: book 111 posted again, with other fields, to a store that
holds book 111. -/
theorem addBook_duplicate_witness :
    (addBook (fun _ => true) ⟨[⟨"111", "A", "X", "$1"⟩], true, false⟩ ResponseWriter.fresh
      ⟨"/books", "\x7b\"isbn\":\"111\",\"title\":\"Z\"\x7d", ""⟩).2.status = 400 ∧
    (addBook (fun _ => true) ⟨[⟨"111", "A", "X", "$1"⟩], true, false⟩ ResponseWriter.fresh
      ⟨"/books", "\x7b\"isbn\":\"111\",\"title\":\"Z\"\x7d", ""⟩).2.body =
      "\x7bmessage:\"Book with ISBN already exists\"\x7d" ∧
    (addBook (fun _ => true) ⟨[⟨"111", "A", "X", "$1"⟩], true, false⟩ ResponseWriter.fresh
      ⟨"/books", "\x7b\"isbn\":\"111\",\"title\":\"Z\"\x7d", ""⟩).1 =
      ⟨[⟨"111", "A", "X", "$1"⟩], true, false⟩ :=
  addBook_duplicate (fun _ => true) ⟨[⟨"111", "A", "X", "$1"⟩], true, false⟩
    ⟨"/books", "\x7b\"isbn\":\"111\",\"title\":\"Z\"\x7d", ""⟩ ⟨"111", "Z", "", ""⟩
    (by decide) rfl rfl (by decide)

/-- C4, the code at the failing input: with the store up and holding only book
111, the get-by-ISBN request for 999 is answered with status 500 and the
message "Database error", because `One` reports the missing document as an
error and the handler turns every error of `One` into a 500. -/
theorem bookByISBN_unknown_is_500 :
    (bookByISBN (fun _ => true) ⟨[⟨"111", "A", "X", "$1"⟩], true, false⟩ ResponseWriter.fresh
      ⟨"/books/999", "", "999"⟩).2.status = 500 ∧
    (bookByISBN (fun _ => true) ⟨[⟨"111", "A", "X", "$1"⟩], true, false⟩ ResponseWriter.fresh
      ⟨"/books/999", "", "999"⟩).2.body = "\x7bmessage:\"Database error\"\x7d" ∧
    (bookByISBN (fun _ => true) ⟨[⟨"111", "A", "X", "$1"⟩], true, false⟩ ResponseWriter.fresh
      ⟨"/books/999", "", "999"⟩).2.status ≠ 404 := by
  decide


/-- C5, as amended: for every store (up, no two records with the same `isbn`)
that holds a record with isbn `i`, and every update request for `i` whose body
decodes without error to a book `b` whose own `isbn` is `i` or belongs to no
stored record, `updateBook` answers 204 with an empty body; and when the `isbn`
of `b` is not empty, a get-by-ISBN request for it that follows is answered 200
with a body that decodes to a record equal to `b`. -/
theorem update_then_get (tbl : Nat → Bool) (s : Session) (r : Request) (b : Book)
    (path body : String)
    (hbody : Decode r.Body Book.zero = (b, none)) (hup : s.down = false)
    (huniq : UniqueISBN s.books) (hold : Holds s.books r.isbn)
    (hfree : b.ISBN = r.isbn ∨ ∀ d ∈ s.books, d.isbn ≠ b.ISBN) :
    (updateBook tbl s ResponseWriter.fresh r).2.status = 204 ∧
    (updateBook tbl s ResponseWriter.fresh r).2.body = "" ∧
    (b.ISBN ≠ "" →
      (bookByISBN tbl (updateBook tbl s ResponseWriter.fresh r).1 ResponseWriter.fresh
        ⟨path, body, b.ISBN⟩).2.status = 200 ∧
      Decode (bookByISBN tbl (updateBook tbl s ResponseWriter.fresh r).1 ResponseWriter.fresh
        ⟨path, body, b.ISBN⟩).2.body Book.zero = (b, none)) := by
  obtain ⟨pre, x, post, h1, h2, h3, h4⟩ := splitFirst_some hold
  rw [h2] at huniq
  have ho := unique_others huniq
  have hpre : ∀ d ∈ pre, d.isbn ≠ b.ISBN := by
    intro d hd
    rcases hfree with e | hf
    · rw [e]; exact h4 d hd
    · exact hf d (by rw [h2]; exact List.mem_append_left _ hd)
  have hothers : ∀ d ∈ pre ++ post, d.isbn ≠ (bsonMarshal b).isbn := by
    intro d hd
    rcases hfree with e | hf
    · have := ho.2 d hd
      rw [h3, ← e] at this
      exact this
    · apply hf d
      rw [h2]
      rcases List.mem_append.1 hd with hd | hd
      · exact List.mem_append_left _ hd
      · exact List.mem_append_right _ (List.mem_cons_of_mem _ hd)
  have hU := @Update_ok s r.isbn (bsonMarshal b) x pre post hup h1 hothers
  have hs1 : updateBook tbl s ResponseWriter.fresh r =
      ({ s with books := pre ++ bsonMarshal b :: post },
        ResponseWriter.fresh.WriteHeader 204) := by
    simp [updateBook, hbody, hU]
  rw [hs1]
  refine ⟨rfl, rfl, ?_⟩
  intro hne
  have hfind : (pre ++ bsonMarshal b :: post).find? (matchesISBN b.ISBN) =
      some (bsonMarshal b) := by
    rw [List.find?_append, find_matches_none hpre]
    simp [matchesISBN, bsonMarshal]
  have hf := bookByISBN_found tbl { s with books := pre ++ bsonMarshal b :: post }
    ⟨path, body, b.ISBN⟩ (bsonMarshal b) hup hfind hne
  rw [hf.1, hf.2]
  exact ⟨rfl, Decode_MarshalIndentBook b⟩

/-- C5, witness of the amended claim: book 111 replaced, under the same
`isbn`, in a store that also holds book 222, then read back. -/
theorem update_then_get_witness :
    (updateBook (fun _ => true)
      ⟨[⟨"222", "B", "Y", "$2"⟩, ⟨"111", "A", "X", "$1"⟩], true, false⟩ ResponseWriter.fresh
      ⟨"/books/111", MarshalIndentBook ⟨"111", "C", "Z", "$3"⟩, "111"⟩).2.status = 204 ∧
    (updateBook (fun _ => true)
      ⟨[⟨"222", "B", "Y", "$2"⟩, ⟨"111", "A", "X", "$1"⟩], true, false⟩ ResponseWriter.fresh
      ⟨"/books/111", MarshalIndentBook ⟨"111", "C", "Z", "$3"⟩, "111"⟩).2.body = "" ∧
    (bookByISBN (fun _ => true)
      (updateBook (fun _ => true)
        ⟨[⟨"222", "B", "Y", "$2"⟩, ⟨"111", "A", "X", "$1"⟩], true, false⟩ ResponseWriter.fresh
        ⟨"/books/111", MarshalIndentBook ⟨"111", "C", "Z", "$3"⟩, "111"⟩).1
      ResponseWriter.fresh ⟨"/books/111", "", "111"⟩).2.status = 200 ∧
    Decode (bookByISBN (fun _ => true)
      (updateBook (fun _ => true)
        ⟨[⟨"222", "B", "Y", "$2"⟩, ⟨"111", "A", "X", "$1"⟩], true, false⟩ ResponseWriter.fresh
        ⟨"/books/111", MarshalIndentBook ⟨"111", "C", "Z", "$3"⟩, "111"⟩).1
      ResponseWriter.fresh ⟨"/books/111", "", "111"⟩).2.body Book.zero =
      (⟨"111", "C", "Z", "$3"⟩, none) :=
  have h := update_then_get (fun _ => true)
    ⟨[⟨"222", "B", "Y", "$2"⟩, ⟨"111", "A", "X", "$1"⟩], true, false⟩
    ⟨"/books/111", MarshalIndentBook ⟨"111", "C", "Z", "$3"⟩, "111"⟩ ⟨"111", "C", "Z", "$3"⟩
    "/books/111" "" (by decide) rfl (by decide) (by decide) (Or.inl rfl)
  ⟨h.1, h.2.1, (h.2.2 (by decide)).1, (h.2.2 (by decide)).2⟩

/-- C5, counterexample to the claim as stated: the store holds book 111; the
update request for 111 carries a well-formed body whose `isbn` is 222; it is
answered 204, and the get-by-ISBN request for 111 that follows is answered 500,
not 200 (the record now answers to 222). -/
theorem update_other_isbn_then_get :
    Holds [⟨"111", "A", "X", "$1"⟩] "111" ∧
    Decode (MarshalIndentBook ⟨"222", "B", "Y", "$2"⟩) Book.zero =
      (⟨"222", "B", "Y", "$2"⟩, none) ∧
    (updateBook (fun _ => true) ⟨[⟨"111", "A", "X", "$1"⟩], true, false⟩ ResponseWriter.fresh
      ⟨"/books/111", MarshalIndentBook ⟨"222", "B", "Y", "$2"⟩, "111"⟩).2.status = 204 ∧
    (bookByISBN (fun _ => true)
      (updateBook (fun _ => true) ⟨[⟨"111", "A", "X", "$1"⟩], true, false⟩ ResponseWriter.fresh
        ⟨"/books/111", MarshalIndentBook ⟨"222", "B", "Y", "$2"⟩, "111"⟩).1
      ResponseWriter.fresh ⟨"/books/111", "", "111"⟩).2.status = 500 ∧
    ¬ (bookByISBN (fun _ => true)
      (updateBook (fun _ => true) ⟨[⟨"111", "A", "X", "$1"⟩], true, false⟩ ResponseWriter.fresh
        ⟨"/books/111", MarshalIndentBook ⟨"222", "B", "Y", "$2"⟩, "111"⟩).1
      ResponseWriter.fresh ⟨"/books/111", "", "111"⟩).2.status = 200 ∧
    (updateBook (fun _ => true) ⟨[⟨"111", "A", "X", "$1"⟩], true, false⟩ ResponseWriter.fresh
      ⟨"/books/111", MarshalIndentBook ⟨"222", "B", "Y", "$2"⟩, "111"⟩).1.books =
      [⟨"222", "B", "Y", "$2"⟩] := by
  decide

/-- C6: for every store (up, no two records with the same `isbn`) that holds a
record with isbn `i`, `deleteBook` for `i` answers 204 with no body and leaves
a collection with no record of isbn `i` and all other records as they were, in
their order; a second `deleteBook` for `i` answers 404 with the message "Book
not found" and leaves the store unchanged. -/
theorem deleteBook_twice (tbl : Nat → Bool) (s : Session) (r : Request)
    (hup : s.down = false) (huniq : UniqueISBN s.books) (hold : Holds s.books r.isbn) :
    (deleteBook tbl s ResponseWriter.fresh r).2.status = 204 ∧
    (deleteBook tbl s ResponseWriter.fresh r).2.body = "" ∧
    (∀ d ∈ (deleteBook tbl s ResponseWriter.fresh r).1.books, d.isbn ≠ r.isbn) ∧
    (deleteBook tbl s ResponseWriter.fresh r).1.books =
      s.books.filter (fun d => !matchesISBN r.isbn d) ∧
    (deleteBook tbl (deleteBook tbl s ResponseWriter.fresh r).1 ResponseWriter.fresh r).2.status
      = 404 ∧
    (deleteBook tbl (deleteBook tbl s ResponseWriter.fresh r).1 ResponseWriter.fresh r).2.body
      = "\x7bmessage:\"Book not found\"\x7d" ∧
    (deleteBook tbl (deleteBook tbl s ResponseWriter.fresh r).1 ResponseWriter.fresh r).1
      = (deleteBook tbl s ResponseWriter.fresh r).1 := by
  obtain ⟨pre, x, post, h1, h2, h3, h4⟩ := splitFirst_some hold
  rw [h2] at huniq
  have ho := unique_others huniq
  rw [h3] at ho
  have hs1 : deleteBook tbl s ResponseWriter.fresh r =
      ({ s with books := pre ++ post }, ResponseWriter.fresh.WriteHeader 204) := by
    simp [deleteBook, Remove_ok hup h1]
  have hs2 : deleteBook tbl { s with books := pre ++ post } ResponseWriter.fresh r =
      ({ s with books := pre ++ post },
        ErrorWithJSON tbl ResponseWriter.fresh "Book not found" 404) := by
    have := @Remove_missing { s with books := pre ++ post } r.isbn hup ho.2
    simp [deleteBook, this]
  rw [hs1, hs2]
  refine ⟨rfl, rfl, ho.2, ?_, rfl, rfl, rfl⟩
  show pre ++ post = List.filter _ s.books
  rw [h2, List.filter_append, List.filter_cons]
  have hx : (!matchesISBN r.isbn x) = false := by simp [matchesISBN, h3]
  rw [hx]
  simp only [Bool.false_eq_true, if_false]
  rw [← List.filter_append, filter_others ho.2]

/-- C6, witness: book 111 deleted twice from a store that holds books 222, 111
and 333. -/
theorem deleteBook_twice_witness :
    (deleteBook (fun _ => true)
      ⟨[⟨"222", "B", "Y", "$2"⟩, ⟨"111", "A", "X", "$1"⟩, ⟨"333", "C", "Z", "$3"⟩], true, false⟩
      ResponseWriter.fresh ⟨"/books/111", "", "111"⟩).2.status = 204 ∧
    (deleteBook (fun _ => true)
      ⟨[⟨"222", "B", "Y", "$2"⟩, ⟨"111", "A", "X", "$1"⟩, ⟨"333", "C", "Z", "$3"⟩], true, false⟩
      ResponseWriter.fresh ⟨"/books/111", "", "111"⟩).1.books =
      [⟨"222", "B", "Y", "$2"⟩, ⟨"333", "C", "Z", "$3"⟩] ∧
    (deleteBook (fun _ => true)
      (deleteBook (fun _ => true)
        ⟨[⟨"222", "B", "Y", "$2"⟩, ⟨"111", "A", "X", "$1"⟩, ⟨"333", "C", "Z", "$3"⟩], true,
          false⟩
        ResponseWriter.fresh ⟨"/books/111", "", "111"⟩).1
      ResponseWriter.fresh ⟨"/books/111", "", "111"⟩).2.status = 404 :=
  have h := deleteBook_twice (fun _ => true)
    ⟨[⟨"222", "B", "Y", "$2"⟩, ⟨"111", "A", "X", "$1"⟩, ⟨"333", "C", "Z", "$3"⟩], true, false⟩
    ⟨"/books/111", "", "111"⟩ rfl (by decide) (by decide)
  ⟨h.1, h.2.2.2.1, h.2.2.2.2.1⟩


/-- C7: starting from an empty collection on which `ensureIndex` has built the
unique index, after any finite sequence of create, update, delete, list and get
requests, with arbitrary bodies and path identifiers and with the store up or
down at each of them, no two stored records have the same `isbn`. -/
theorem unique_isbn_invariant (tbl : Nat → Bool) (s0 s1 : Session) (cs : List Call)
    (hempty : s0.books = []) (hstart : ensureIndex s0 = some s1) :
    UniqueISBN (serveAll tbl s1 cs).books := by
  have h1 : Indexed s1 := by
    unfold ensureIndex EnsureIndex at hstart
    by_cases hd : s0.down = true
    · simp [hd] at hstart
    · simp only [hd, Bool.false_eq_true, if_false, Option.some.injEq] at hstart
      subst hstart
      simp [Indexed, UniqueISBN, hempty, dropDups]
  exact (serveAll_indexed tbl cs s1 h1).2

/-- C7, witness: books 111 and 222 are created, an update of 111 tries to turn
it into 222, an update of 111 turns it into 333, 111 is created again, and 222
is deleted. -/
theorem unique_isbn_invariant_witness :
    UniqueISBN (serveAll (fun _ => true) ⟨[], true, false⟩
      [⟨Route.create, ⟨"/books", MarshalIndentBook ⟨"111", "A", "X", "$1"⟩, ""⟩, false⟩,
        ⟨Route.create, ⟨"/books", MarshalIndentBook ⟨"222", "B", "Y", "$2"⟩, ""⟩, false⟩,
        ⟨Route.update, ⟨"/books/111", MarshalIndentBook ⟨"222", "C", "Z", "$3"⟩, "111"⟩, false⟩,
        ⟨Route.update, ⟨"/books/111", MarshalIndentBook ⟨"333", "C", "Z", "$3"⟩, "111"⟩, false⟩,
        ⟨Route.create, ⟨"/books", MarshalIndentBook ⟨"111", "D", "W", "$4"⟩, ""⟩, false⟩,
        ⟨Route.delete, ⟨"/books/222", "", "222"⟩, false⟩]).books :=
  unique_isbn_invariant (fun _ => true) ⟨[], false, false⟩ ⟨[], true, false⟩
    [⟨Route.create, ⟨"/books", MarshalIndentBook ⟨"111", "A", "X", "$1"⟩, ""⟩, false⟩,
      ⟨Route.create, ⟨"/books", MarshalIndentBook ⟨"222", "B", "Y", "$2"⟩, ""⟩, false⟩,
      ⟨Route.update, ⟨"/books/111", MarshalIndentBook ⟨"222", "C", "Z", "$3"⟩, "111"⟩, false⟩,
      ⟨Route.update, ⟨"/books/111", MarshalIndentBook ⟨"333", "C", "Z", "$3"⟩, "111"⟩, false⟩,
      ⟨Route.create, ⟨"/books", MarshalIndentBook ⟨"111", "D", "W", "$4"⟩, ""⟩, false⟩,
      ⟨Route.delete, ⟨"/books/222", "", "222"⟩, false⟩]
    rfl rfl

/-- C8: for every create request whose body fails to decode, leaving the book
value `book` behind, `addBook` writes status 400 and the message "Incorrect
request body" and goes on to the insert all the same, whatever the store then
does: the status the client gets is 400 in every case, and the body starts with
that message. When the store is up and the `isbn` of `book` is that of no
stored record, the collection afterwards is the old one followed by the record
of `book`, the body is that message alone, and no `Location` header is sent. -/
theorem addBook_malformed (tbl : Nat → Bool) (s : Session) (r : Request) (book : Book)
    (e : DecodeError) (hbody : Decode r.Body Book.zero = (book, some e)) :
    (addBook tbl s ResponseWriter.fresh r).2.status = 400 ∧
    (∃ more, (addBook tbl s ResponseWriter.fresh r).2.body =
      "\x7bmessage:\"Incorrect request body\"\x7d" ++ more) ∧
    (s.down = false → (∀ d ∈ s.books, d.isbn ≠ book.ISBN) →
      (addBook tbl s ResponseWriter.fresh r).1.books = s.books ++ [bsonMarshal book] ∧
      bsonMarshal book ∈ (addBook tbl s ResponseWriter.fresh r).1.books ∧
      (addBook tbl s ResponseWriter.fresh r).2.body =
        "\x7bmessage:\"Incorrect request body\"\x7d" ∧
      headerGet (addBook tbl s ResponseWriter.fresh r).2.sent "Location" = none) := by
  have hw : (ErrorWithJSON tbl ResponseWriter.fresh "Incorrect request body" 400).wroteHeader
      = true := rfl
  have hst : (ErrorWithJSON tbl ResponseWriter.fresh "Incorrect request body" 400).status
      = 400 := rfl
  have hbd : (ErrorWithJSON tbl ResponseWriter.fresh "Incorrect request body" 400).body
      = "\x7bmessage:\"Incorrect request body\"\x7d" := rfl
  have hal : bodyAllowedForStatus
      (ErrorWithJSON tbl ResponseWriter.fresh "Incorrect request body" 400).status = true := rfl
  refine ⟨?_, ?_, ?_⟩
  · simp only [addBook, hbody]
    split
    · split_ifs
      · exact (ErrorWithJSON_after tbl _ _ _ hw hal).1.trans hst
      · exact (ErrorWithJSON_after tbl _ _ _ hw hal).1.trans hst
    · rfl
  · simp only [addBook, hbody]
    split
    · split_ifs
      · exact ⟨_, by rw [(ErrorWithJSON_after tbl _ _ _ hw hal).2.2, hbd]⟩
      · exact ⟨_, by rw [(ErrorWithJSON_after tbl _ _ _ hw hal).2.2, hbd]⟩
    · exact ⟨"", rfl⟩
  · intro hup hnew
    have hI := @Insert_new s (bsonMarshal book) hup hnew
    have hout : addBook tbl s ResponseWriter.fresh r =
        ({ s with books := s.books ++ [bsonMarshal book] },
          (((ErrorWithJSON tbl ResponseWriter.fresh "Incorrect request body" 400).SetHeader
            "Content-Type" "application/json").SetHeader
            "Location" (r.Path ++ "/" ++ book.ISBN)).WriteHeader 201) := by
      simp only [addBook, hbody, hI]
    rw [hout]
    exact ⟨rfl, by simp, rfl, rfl⟩


/-- C8, witness: a body whose `title` is a number. Decoding fails with a type
error after `isbn` was stored, and the half-filled book 111 ends up in the
collection behind book 222. -/
theorem addBook_malformed_witness :
    (addBook (fun _ => true) ⟨[⟨"222", "B", "Y", "$2"⟩], true, false⟩ ResponseWriter.fresh
      ⟨"/books", "\x7b\"isbn\":\"111\",\"title\":5\x7d", ""⟩).2.status = 400 ∧
    (addBook (fun _ => true) ⟨[⟨"222", "B", "Y", "$2"⟩], true, false⟩ ResponseWriter.fresh
      ⟨"/books", "\x7b\"isbn\":\"111\",\"title\":5\x7d", ""⟩).1.books =
        [⟨"222", "B", "Y", "$2"⟩, ⟨"111", "", "", ""⟩] ∧
    (addBook (fun _ => true) ⟨[⟨"222", "B", "Y", "$2"⟩], true, false⟩ ResponseWriter.fresh
      ⟨"/books", "\x7b\"isbn\":\"111\",\"title\":5\x7d", ""⟩).2.body =
        "\x7bmessage:\"Incorrect request body\"\x7d" ∧
    headerGet (addBook (fun _ => true) ⟨[⟨"222", "B", "Y", "$2"⟩], true, false⟩
      ResponseWriter.fresh ⟨"/books", "\x7b\"isbn\":\"111\",\"title\":5\x7d", ""⟩).2.sent
        "Location" = none :=
  have h := addBook_malformed (fun _ => true) ⟨[⟨"222", "B", "Y", "$2"⟩], true, false⟩
    ⟨"/books", "\x7b\"isbn\":\"111\",\"title\":5\x7d", ""⟩ ⟨"111", "", "", ""⟩
    DecodeError.wrongType (by decide)
  ⟨h.1, (h.2.2 rfl (by decide)).1, (h.2.2 rfl (by decide)).2.2.1,
    (h.2.2 rfl (by decide)).2.2.2⟩

/-- C9, the code at the failing input: for the message "Book not found" and
the code 404 the status is 404, but the body is `{message:"Book not found"}`,
with the member name unquoted. It is not the object
`{"message": "Book not found"}` and it is not valid JSON at all. -/
theorem ErrorWithJSON_not_json :
    (ErrorWithJSON (fun _ => true) ResponseWriter.fresh "Book not found" 404).status = 404 ∧
    (ErrorWithJSON (fun _ => true) ResponseWriter.fresh "Book not found" 404).body =
      "\x7bmessage:\"Book not found\"\x7d" ∧
    Valid (ErrorWithJSON (fun _ => true) ResponseWriter.fresh "Book not found" 404).body
      = false ∧
    Valid "\x7b\"message\": \"Book not found\"\x7d" = true ∧
    (ErrorWithJSON (fun _ => true) ResponseWriter.fresh "Book not found" 404).body ≠
      "\x7b\"message\": \"Book not found\"\x7d" := by
  decide

/-- C10, the code at the failing input: with the store up and the collection
empty, `allBooks` answers 200 with the body `null`, not `[]`: the nil slice that
`All` leaves nil is encoded as `null`. -/
theorem allBooks_empty_is_null :
    (allBooks (fun _ => true) ⟨[], true, false⟩ ResponseWriter.fresh ⟨"/books", "", ""⟩).2.status
      = 200 ∧
    (allBooks (fun _ => true) ⟨[], true, false⟩ ResponseWriter.fresh ⟨"/books", "", ""⟩).2.body
      = "null" ∧
    (allBooks (fun _ => true) ⟨[], true, false⟩ ResponseWriter.fresh ⟨"/books", "", ""⟩).2.body
      ≠ "[]" ∧
    MarshalIndentBooks (some []) = "[]" := by
  decide

end MongoTest
